import Mathlib

/-!
Shallow embedding of the `LaptopGalleryHybrid` image-gallery state manager
from `src/unnamed/part_000` (the "hybrid" gallery variant, the most capable
one, which the specification models).  The store state, its operations
(`loadExistingImages` / hydrate, `handleFiles` / addImages, `setAsCover`,
`deleteImage`, `drop` / reorder, `getNextSlot`) and the form synchronizer
(`syncFormInputs`, `syncDeletedImages`) are translated directly from the
JavaScript source.  DOM rendering, CSS animation and notification display
are modelled only to the extent they touch store state: `render` sorts the
image array by slot (`this.images.sort((a,b) => a.slot - b.slot)`), and
`showNotification` calls are collected into a returned list.
-/

namespace LaptopGalleryHybrid

/-- URLs.  `URL.createObjectURL` produces strings of the shape `blob:...`,
pairwise distinct; remote image URLs come from `data-image-url` attributes.
We model the two kinds as a sum so that blob URLs carry the allocation
counter that makes them unique, mirroring `url.startsWith('blob:')`
with `Url.isBlob`. -/
inductive Url where
  | blob (n : Nat)
  | remote (s : String)
deriving DecidableEq, Repr

/-- Test whether a URL is an object URL, as `url.startsWith('blob:')`. -/
def Url.isBlob : Url → Bool
  | .blob _ => true
  | .remote _ => false

/-- A candidate file, as far as the gallery inspects it: `file.name`,
`file.type` (MIME), `file.size` (bytes), and the decoded natural
dimensions.  `dims = none` models a file whose `Image` decode fires
`onerror` (corrupt / unreadable image). -/
structure JsFile where
  name : String
  mime : String
  size : Nat
  dims : Option (Nat × Nat)
deriving DecidableEq, Repr

/-- The `type` / `status` tag of an entry: `'new'` vs `'existing'`. -/
inductive ImgType where
  | new
  | existing
deriving DecidableEq, Repr

/-- The `source` field: a `File` object for new images, the remote URL
string for existing ones. -/
inductive Source where
  | file (f : JsFile)
  | remoteSrc (u : String)
deriving DecidableEq, Repr

/-- One element of `this.images`. -/
structure ImageData where
  id : String
  imgType : ImgType
  source : Source
  url : Url
  alt : String
  isCover : Bool
  slot : Nat
  name : String
deriving DecidableEq, Repr

/-- The mutable state of the `LaptopGalleryHybrid` object.  `urlCounter`
drives the model of `URL.createObjectURL`; `revokedUrls` is the log of
`URL.revokeObjectURL` calls, recorded so release-exactly-once properties
can be stated. -/
structure GalleryState where
  images : List ImageData
  imagesToDelete : List String
  nextTempId : Nat
  currentCoverSlot : Nat
  objectUrls : List Url
  revokedUrls : List Url
  urlCounter : Nat
deriving DecidableEq, Repr

/-- Constant `imageConfig.maxImages`. -/
def maxImages : Nat := 8

/-- Constant `imageConfig.maxSize` (5MB upload ceiling). -/
def maxSize : Nat := 5 * 1024 * 1024

/-- Constant `imageConfig.bgMaxSize` (10MB background-removal ceiling). -/
def bgMaxSize : Nat := 10 * 1024 * 1024

/-- Constant `imageConfig.minWidth`. -/
def minWidth : Nat := 400

/-- Constant `imageConfig.minHeight`. -/
def minHeight : Nat := 300

/-- Constant `imageConfig.validTypes`. -/
def validTypes : List String :=
  ["image/jpeg", "image/jpg", "image/png", "image/webp", "image/gif"]

/-- The state of the object before `init` runs. -/
def initialState : GalleryState :=
  { images := []
    imagesToDelete := []
    nextTempId := 1
    currentCoverSlot := 1
    objectUrls := []
    revokedUrls := []
    urlCounter := 0 }

/-- The slot ordering used by `render`'s
`this.images.sort((a, b) => a.slot - b.slot)`. -/
def slotLe (a b : ImageData) : Prop := a.slot ≤ b.slot

instance : DecidableRel slotLe := fun a b => Nat.decLe a.slot b.slot

instance : IsTotal ImageData slotLe := ⟨fun a b => Nat.le_total a.slot b.slot⟩

instance : IsTrans ImageData slotLe := ⟨fun _ _ _ => Nat.le_trans⟩

/-- The state-relevant part of `render`: the image array is sorted by slot
before cards are rebuilt.  JS `Array.prototype.sort` is a stable sort, so
any stable sort under the same comparator (here, insertion sort) produces
the identical array. -/
def renderSort (s : GalleryState) : GalleryState :=
  { s with images := s.images.insertionSort slotLe }

/-- Kinds of `showNotification` calls. -/
inductive NotifType where
  | success
  | error
  | warning
deriving DecidableEq, Repr

/-- One `showNotification(message, type)` call. -/
structure Notification where
  message : String
  ntype : NotifType
deriving DecidableEq, Repr

/-- Model of `URL.createObjectURL(file)`: hand out the next blob URL and
remember it in `objectUrls` (the `this.objectUrls.add(url)` bookkeeping). -/
def createObjectUrl (s : GalleryState) : Url × GalleryState :=
  (Url.blob s.urlCounter,
   { s with urlCounter := s.urlCounter + 1
            objectUrls := s.objectUrls ++ [Url.blob s.urlCounter] })

/-- Operation `setAsCover(index)`: bounds-guarded; clears `isCover` on every entry,
sets it on the entry at `index`, records its slot as `currentCoverSlot`,
then re-renders (sorts). -/
def setAsCover (s : GalleryState) (index : Nat) : GalleryState :=
  if h : index < s.images.length then
    let newCoverImage := s.images.get ⟨index, h⟩
    let cleared := s.images.map (fun img => { img with isCover := false })
    let images := cleared.set index { newCoverImage with isCover := true }
    renderSort { s with images := images, currentCoverSlot := newCoverImage.slot }
  else s

/-- The `this.images[0].isCover = true` promotion applied to the
post-splice array. -/
def promoteFirst : List ImageData → List ImageData
  | [] => []
  | first :: rest => { first with isCover := true } :: rest

/-- The slot recorded in `currentCoverSlot` by the promotion. -/
def firstSlot (dflt : Nat) : List ImageData → Nat
  | [] => dflt
  | first :: _ => first.slot

/-- The body of `deleteImage` once the bounds guard has passed. -/
def deleteImageCore (s : GalleryState) (index : Nat) (h : index < s.images.length) :
    GalleryState :=
  let imageData := s.images.get ⟨index, h⟩
  let isNewBlob : Prop := imageData.imgType = ImgType.new ∧ imageData.url.isBlob
  let remaining := s.images.eraseIdx index
  let promote : Prop := imageData.isCover ∧ remaining.length > 0
  renderSort
    { s with
      images := if promote then promoteFirst remaining else remaining
      imagesToDelete :=
        if imageData.imgType = ImgType.existing then s.imagesToDelete ++ [imageData.id]
        else s.imagesToDelete
      objectUrls := if isNewBlob then s.objectUrls.erase imageData.url else s.objectUrls
      revokedUrls := if isNewBlob then s.revokedUrls ++ [imageData.url] else s.revokedUrls
      currentCoverSlot :=
        if promote then firstSlot s.currentCoverSlot remaining
        else if remaining.length = 0 then 1
        else s.currentCoverSlot }

/-- Operation `deleteImage(index)` with the `confirm(...)` dialog answered yes
(declining is a no-op and is gated by the caller, not the store).
Existing entries are queued in `imagesToDelete`; new blob-backed entries
have their object URL revoked and dropped from `objectUrls`; the entry is
spliced out; if it was the cover and images remain, `images[0]` is
promoted; finally the view re-renders (sorts). -/
def deleteImage (s : GalleryState) (index : Nat) : GalleryState :=
  if h : index < s.images.length then deleteImageCore s index h
  else s

/-- The loop body of `getNextSlot`: scan `i = lo, lo+1, ...` for the first
slot number not in `used`, with `fuel` iterations remaining
(`for (let i = 1; i <= maxImages; i++)`). -/
def firstUnusedSlot (used : List Nat) : Nat → Nat → Option Nat
  | _, 0 => none
  | lo, fuel + 1 =>
    if used.contains lo then firstUnusedSlot used (lo + 1) fuel else some lo

/-- Operation `getNextSlot()`: 1 for an empty gallery, otherwise the first slot in
`1..maxImages` not currently used, falling back to `images.length + 1`. -/
def getNextSlot (s : GalleryState) : Nat :=
  if s.images.length = 0 then 1
  else
    let usedSlots := s.images.map (fun img => img.slot)
    match firstUnusedSlot usedSlots 1 maxImages with
    | some i => i
    | none => s.images.length + 1

/-- The regular expression `\.[^/.]+$` applied by
`file.name.replace(/\.[^/.]+$/, "")`: strip a final dot-extension whose
extension part is non-empty and contains neither `.` nor `/`. -/
def stripLastExt (name : String) : String :=
  let rev := name.toList.reverse
  let ext := rev.takeWhile (fun c => c ≠ '.' && c ≠ '/')
  let rest := rev.dropWhile (fun c => c ≠ '.' && c ≠ '/')
  match rest with
  | '.' :: before =>
    if ext.isEmpty then name else String.mk before.reverse
  | _ => name

/-- Operation `addNewImage(file)`: allocate an object URL, decide cover promotion
(`images.length === 0 || !images.some(img => img.isCover)`), build the new
entry with a fresh temp id, the derived default alt text and the next free
slot, and push it. -/
def addNewImage (s : GalleryState) (file : JsFile) : GalleryState :=
  let alloc := createObjectUrl s
  let url := alloc.1
  let s1 := alloc.2
  let willBeCover := s1.images.length = 0 ∨ ¬ s1.images.any (fun img => img.isCover)
  let imageData : ImageData :=
    { id := "temp-" ++ toString s1.nextTempId
      imgType := ImgType.new
      source := Source.file file
      url := url
      alt := "Imagen de " ++ stripLastExt file.name
      isCover := decide willBeCover
      slot := getNextSlot s1
      name := file.name }
  { s1 with nextTempId := s1.nextTempId + 1
            currentCoverSlot :=
              if willBeCover then imageData.slot else s1.currentCoverSlot
            images := s1.images ++ [imageData] }

/-- Operation `validateImageFile(file)`: MIME whitelist, 5MB size ceiling, then the
asynchronous dimension check — decode failure (`dims = none`) is reported
as "No se pudo cargar la imagen", undersized dimensions with the
"Dimensiones mínimas" message (which the `catch` re-throws unchanged). -/
def validateImageFile (file : JsFile) : Except String Unit :=
  if ¬ validTypes.contains file.mime then
    Except.error (file.name ++ ": Formato no válido. Usa JPG, PNG, WebP o GIF")
  else if file.size > maxSize then
    Except.error (file.name ++ ": Tamaño máximo 5MB para subida")
  else
    match file.dims with
    | none => Except.error (file.name ++ ": No se pudo cargar la imagen")
    | some wh =>
      if wh.1 < minWidth ∨ wh.2 < minHeight then
        Except.error (file.name ++ ": Dimensiones mínimas "
          ++ toString minWidth ++ "x" ++ toString minHeight ++ "px")
      else Except.ok ()

/-- The `for (const file of fileArray)` loop of `handleFiles`: validate
each file, add it on success (counting oversized-for-background files as
warnings), surface each validation error as an error notification.
Returns the final state, the error notifications in order, the success
count and the warning count. -/
def processFiles (s : GalleryState) :
    List JsFile → List Notification × Nat × Nat → GalleryState × List Notification × Nat × Nat
  | [], acc => (s, acc)
  | file :: rest, (notifs, successCount, warningCount) =>
    match validateImageFile file with
    | Except.error msg =>
      processFiles s rest (notifs ++ [⟨msg, NotifType.error⟩], successCount, warningCount)
    | Except.ok _ =>
      let s1 := addNewImage s file
      let warningCount1 := if file.size > bgMaxSize then warningCount + 1 else warningCount
      processFiles s1 rest (notifs, successCount + 1, warningCount1)

/-- Spanish pluralization helper appearing inline in the source messages:
`${n !== 1 ? suffix : ''}`. -/
def plural (n : Nat) (suffix : String) : String :=
  if n ≠ 1 then suffix else ""

/-- The capacity-exhausted notification of `handleFiles`. -/
def maxedOutNotification : Notification :=
  ⟨"⚠️ Ya tienes el máximo de " ++ toString maxImages
     ++ " imágenes. Elimina algunas primero.", NotifType.error⟩

/-- The overflow warning of `handleFiles` for `availableSlots` remaining
slots. -/
def overflowNotification (availableSlots : Nat) : Notification :=
  ⟨"ℹ️ Solo puedes agregar " ++ toString availableSlots ++ " imagen"
     ++ plural availableSlots "es" ++ " más.", NotifType.warning⟩

/-- The success notification of `handleFiles`. -/
def successNotification (successCount warningCount : Nat) : Notification :=
  let base := toString successCount ++ " imagen" ++ plural successCount "es"
    ++ " agregada" ++ plural successCount "s" ++ " correctamente."
  let message :=
    if warningCount > 0 then
      base ++ " " ++ toString warningCount ++ " imagen" ++ plural warningCount "es"
        ++ " grande" ++ plural warningCount "s"
        ++ " (más de 10MB) puede fallar en eliminación de fondo."
    else base
  ⟨message, NotifType.success⟩

/-- The local `availableSlots = this.imageConfig.maxImages -
this.images.length` of `handleFiles` (in JS arithmetic, which can go
negative). -/
def availableSlotsOf (s : GalleryState) : Int :=
  (maxImages : Int) - (s.images.length : Int)

/-- The body of `handleFiles` once the capacity guard has passed:
truncate the batch to the remaining capacity
(`Array.from(files).slice(0, availableSlots)`), emit the one overflow
warning when files were dropped, run the validation loop, and re-render
(sort) plus emit the success summary only when at least one file was
accepted. -/
def handleFilesGo (s : GalleryState) (files : List JsFile) :
    GalleryState × List Notification × Nat :=
  let fileArray := files.take (availableSlotsOf s).toNat
  let capNotifs : List Notification :=
    if (files.length : Int) > availableSlotsOf s then
      [overflowNotification (availableSlotsOf s).toNat]
    else []
  let r := processFiles s fileArray ([], 0, 0)
  if r.2.2.1 > 0 then
    (renderSort r.1,
     capNotifs ++ r.2.1 ++ [successNotification r.2.2.1 r.2.2.2], r.2.2.1)
  else
    (r.1, capNotifs ++ r.2.1, r.2.2.1)

/-- Operation `handleFiles(files)`: bail out with a single capacity error when no
slot is free, otherwise run the truncated validation loop.  Returns the
final state, all notifications in display order, and the accepted-file
count. -/
def handleFiles (s : GalleryState) (files : List JsFile) :
    GalleryState × List Notification × Nat :=
  if availableSlotsOf s ≤ 0 then
    (s, [maxedOutNotification], 0)
  else
    handleFilesGo s files

/-- The index clamping of `Array.prototype.splice`: a negative `start`
counts from the end (floored at 0), a start beyond the length is clipped
to the length. -/
def jsClampIndex (len : Nat) (start : Int) : Nat :=
  (if start < 0 then max ((len : Int) + start) 0 else min start (len : Int)).toNat

/-- JavaScript `Array.prototype.splice(start, 1)` removal.  Returns the
remaining list and the removed element (`undefined`, i.e. `none`, when
`start` clamps to the array length and nothing is removed). -/
def jsSpliceRemoveOne (l : List ImageData) (start : Int) : List ImageData × Option ImageData :=
  let a := jsClampIndex l.length start
  (l.take a ++ l.drop (a + 1), l.get? a)

/-- JavaScript `Array.prototype.splice(start, 0, x)` insertion with the
same index clamping. -/
def jsSpliceInsertOne (l : List ImageData) (start : Int) (x : ImageData) : List ImageData :=
  let a := jsClampIndex l.length start
  l.take a ++ [x] ++ l.drop a

/-- The `this.images.forEach((img, idx) => { img.slot = idx + 1; })`
renumbering, starting the count at `k`. -/
def renumberFrom : List ImageData → Nat → List ImageData
  | [], _ => []
  | img :: rest, k => { img with slot := k } :: renumberFrom rest (k + 1)

/-- Operation `drop(e, targetIndex)`: the card-reorder handler.  `draggedIndex` is
`this.draggedIndex` (`none` when no internal drag is in progress — the
guard `this.draggedIndex !== undefined`).  When the guard passes and the
indices differ, the dragged entry is spliced out and reinserted at the
target (raw JS splice semantics, no bounds check), all slots are
renumbered `1..N`, `currentCoverSlot` follows a moved cover, and the view
re-renders (sorts).  When `draggedIndex` is at or past the array length,
`splice` removes nothing, `undefined` is inserted, and the renumbering
`forEach` throws a `TypeError`; that crash is modelled as `none`. -/
def drop (s : GalleryState) (draggedIndex : Option Int) (targetIndex : Int) :
    Option GalleryState :=
  match draggedIndex with
  | none => some s
  | some di =>
    if di = targetIndex then some s
    else
      let rem := jsSpliceRemoveOne s.images di
      match rem.2 with
      | none => none
      | some movedImage =>
        let inserted := jsSpliceInsertOne rem.1 targetIndex movedImage
        let images := renumberFrom inserted 1
        let movedSlot := jsClampIndex rem.1.length targetIndex + 1
        let coverSlot := if movedImage.isCover then movedSlot else s.currentCoverSlot
        some (renderSort { s with images := images, currentCoverSlot := coverSlot })

/-- What `loadExistingImages` finds in the form for one slot `i`:
either `document.getElementById('image_i')` is null (`noInput`), or the
input exists but carries neither a selected file nor a usable
`data-image-url` (`empty`), or it holds an already-selected local file
(CASE 1), or it carries persisted-image data attributes (CASE 2).
`altValue` is the slot's alt input value, with `""` also covering a
missing alt input (both are falsy under `altInput?.value || default`).
For CASE 1, `coverValue` is `none` when the cover input is missing
(then `isCover` falls back to `i === 1`).  For CASE 2, `coverAttr` is the
raw `data-is-cover` attribute (`none` when absent). -/
inductive SlotData where
  | noInput
  | empty
  | newFile (file : JsFile) (altValue : String) (coverValue : Option String)
  | existingImage (urlAttr : String) (idAttr : Option String)
      (coverAttr : Option String) (altValue : String)
deriving DecidableEq, Repr

/-- Hydration form state: what each slot `1..maxImages` holds. -/
def HydrationForm : Type := Nat → SlotData

/-- ASCII whitespace, as far as the URL attributes the gallery reads are
concerned (JS `trim` also strips rarer Unicode spaces, which do not occur
in the server-rendered attributes). -/
def isWhitespaceChar (c : Char) : Bool :=
  c = ' ' ∨ c = '\t' ∨ c = '\n' ∨ c = '\r'

/-- Whether the CASE-2 guard
`input.hasAttribute('data-image-url') && attr.trim() !== ''` passes: the
trimmed attribute is non-empty exactly when some character is not
whitespace. -/
def usableUrlAttr (urlAttr : String) : Bool :=
  urlAttr.toList.any (fun c => ¬ isWhitespaceChar c)

/-- The loop body of `loadExistingImages` for slot `i`. -/
def loadSlot (s : GalleryState) (i : Nat) (d : SlotData) : GalleryState :=
  match d with
  | SlotData.noInput => s
  | SlotData.empty => s
  | SlotData.newFile file altValue coverValue =>
    let isCover : Bool :=
      match coverValue with
      | some v => v = "true"
      | none => i = 1
    let alloc := createObjectUrl s
    let imageData : ImageData :=
      { id := "temp-" ++ toString s.nextTempId
        imgType := ImgType.new
        source := Source.file file
        url := alloc.1
        alt := if altValue = "" then "Imagen " ++ toString i else altValue
        isCover := isCover
        slot := i
        name := file.name }
    { alloc.2 with
        nextTempId := s.nextTempId + 1
        currentCoverSlot := if isCover then i else s.currentCoverSlot
        images := s.images ++ [imageData] }
  | SlotData.existingImage urlAttr idAttr coverAttr altValue =>
    if usableUrlAttr urlAttr then
      let isCover : Bool := coverAttr = some "true"
      let imageId :=
        match idAttr with
        | some v => if v = "" then toString i else v
        | none => toString i
      let imageData : ImageData :=
        { id := imageId
          imgType := ImgType.existing
          source := Source.remoteSrc urlAttr
          url := Url.remote urlAttr
          alt := if altValue = "" then "Imagen " ++ toString i else altValue
          isCover := isCover
          slot := i
          name := "imagen-" ++ toString i }
      { s with
          currentCoverSlot := if isCover then i else s.currentCoverSlot
          images := s.images ++ [imageData] }
    else s

/-- The `for (let i = 1; i <= maxImages; i++)` scan of
`loadExistingImages`, starting at slot `lo` with `fuel` slots left. -/
def loadSlots (form : HydrationForm) : GalleryState → Nat → Nat → GalleryState
  | s, _, 0 => s
  | s, lo, fuel + 1 => loadSlots form (loadSlot s lo (form lo)) (lo + 1) fuel

/-- The cover auto-promotion at the end of `loadExistingImages`: if images
were loaded and none is marked cover, the first becomes cover. -/
def autoPromoteCover (s : GalleryState) : GalleryState :=
  if s.images.length > 0 ∧ ¬ s.images.any (fun img => img.isCover) then
    { s with images := promoteFirst s.images
             currentCoverSlot := firstSlot s.currentCoverSlot s.images }
  else s

/-- Operation `loadExistingImages()` run against a form. -/
def loadExistingImages (s : GalleryState) (form : HydrationForm) : GalleryState :=
  autoPromoteCover (loadSlots form s 1 maxImages)

/-- The store state after `init` on a fresh page: hydration from the form
followed by the initial `render` (sort). -/
def hydrate (form : HydrationForm) : GalleryState :=
  renderSort (loadExistingImages initialState form)

/-- The native form fields for one slot `i`, as `syncFormInputs` touches
them: the file input (`image_i`, with its `value` string, its `files`
list modelled by the single file the gallery ever attaches, and its
`data-*` attributes), the alt input (`image_i_alt`) and the cover input
(`image_i_is_cover`).  The `*Present` flags model whether
`document.getElementById` finds each element. -/
structure FormSlot where
  inputPresent : Bool
  fileValue : String
  files : Option JsFile
  dataImageId : Option String
  dataImageUrl : Option Url
  dataIsCover : Option String
  altPresent : Bool
  altValue : String
  coverPresent : Bool
  coverValue : String
deriving DecidableEq, Repr

/-- The external form as the synchronizer sees it: one `FormSlot` per slot
number, plus the hidden `images_to_delete` field (`none` until it is
created on first use). -/
structure FormState where
  slots : Nat → FormSlot
  deletedField : Option String

/-- Update one slot of a form. -/
def FormState.setSlot (f : FormState) (i : Nat) (slot : FormSlot) : FormState :=
  { f with slots := fun j => if j = i then slot else f.slots j }

/-- The first loop of `syncFormInputs` for slot `i` ("Limpiar todos los
inputs primero"): the file input's `value` is reassigned only when it is
already empty (`if (!input.value || input.value === '')` — a no-op that
never clears a populated file field), the alt input is emptied, and the
cover input is set to `'false'`. -/
def clearSlot (fs : FormSlot) : FormSlot :=
  let fs1 :=
    if fs.inputPresent then
      if fs.fileValue = "" then { fs with fileValue := "" } else fs
    else fs
  let fs2 := if fs1.altPresent then { fs1 with altValue := "" } else fs1
  if fs2.coverPresent then { fs2 with coverValue := "false" } else fs2

/-- Run the clearing loop over slots `lo, lo+1, ...` with `fuel` slots
remaining. -/
def clearSlots : FormState → Nat → Nat → FormState
  | f, _, 0 => f
  | f, lo, fuel + 1 => clearSlots (f.setSlot lo (clearSlot (f.slots lo))) (lo + 1) fuel

/-- The second loop of `syncFormInputs` for one image: write into the
form slot named by `imageData.slot`.  A missing file input skips the
entry entirely; a new entry's `File` is attached through a `DataTransfer`
(which also sets the input's fakepath `value`); an existing entry only
refreshes its `data-*` attributes; the alt and cover fields are written
when present. -/
def writeImageToForm (f : FormState) (imageData : ImageData) : FormState :=
  let slot := imageData.slot
  let fs := f.slots slot
  if ¬ fs.inputPresent then f
  else
    let fs1 :=
      match imageData.imgType, imageData.source with
      | ImgType.new, Source.file file =>
        { fs with files := some file
                  fileValue := "C:\\fakepath\\" ++ file.name }
      | ImgType.existing, _ =>
        { fs with dataImageId := some imageData.id
                  dataImageUrl := some imageData.url
                  dataIsCover := some (if imageData.isCover then "true" else "false") }
      | _, _ => fs
    let fs2 :=
      if fs1.altPresent then { fs1 with altValue := imageData.alt } else fs1
    let fs3 :=
      if fs2.coverPresent then
        { fs2 with coverValue := if imageData.isCover then "true" else "false" }
      else fs2
    f.setSlot slot fs3

/-- A crude `JSON.stringify` for a list of id strings (escaping of quotes
and backslashes inside ids is elided; the ids the gallery handles are
server ids and `temp-n` ids). -/
def jsonIdList (ids : List String) : String :=
  "[" ++ String.intercalate "," (ids.map (fun id => "\"" ++ id ++ "\"")) ++ "]"

/-- Operation `syncDeletedImages()`: create the hidden `images_to_delete` field on
first use and store the deletion queue as JSON. -/
def syncDeletedImages (s : GalleryState) (f : FormState) : FormState :=
  { f with deletedField := some (jsonIdList s.imagesToDelete) }

/-- Operation `syncFormInputs()`: the clearing loop over slots `1..maxImages`, then
one write per live image, then the deletion-queue field. -/
def syncFormInputs (s : GalleryState) (f : FormState) : FormState :=
  let cleared := clearSlots f 1 maxImages
  let written := s.images.foldl writeImageToForm cleared
  syncDeletedImages s written

/-- One user-driven store mutation: an `addImages` batch, a set-cover
click, a confirmed deletion, or a card drag-and-drop (including its no-op
and wild-index cases; the crashing case produces no successor state). -/
inductive Step : GalleryState → GalleryState → Prop where
  | addFiles (s : GalleryState) (files : List JsFile) : Step s (handleFiles s files).1
  | cover (s : GalleryState) (i : Nat) : Step s (setAsCover s i)
  | del (s : GalleryState) (i : Nat) : Step s (deleteImage s i)
  | reorder (s : GalleryState) (di : Option Int) (ti : Int) (s' : GalleryState) :
      drop s di ti = some s' → Step s s'

/-- States reachable from `s₀` by a sequence of store mutations. -/
inductive ReachableFrom (s₀ : GalleryState) : GalleryState → Prop where
  | refl : ReachableFrom s₀ s₀
  | tail {s s' : GalleryState} : ReachableFrom s₀ s → Step s s' → ReachableFrom s₀ s'

/-- States reachable from some hydrated initial state. -/
def Reachable (s : GalleryState) : Prop :=
  ∃ form : HydrationForm, ReachableFrom (hydrate form) s

/-- Whether hydration of slot `i` from `d` creates an entry that is
marked cover. -/
def slotAddsCover (i : Nat) (d : SlotData) : Bool :=
  match d with
  | SlotData.newFile _ _ coverValue =>
    match coverValue with
    | some v => decide (v = "true")
    | none => decide (i = 1)
  | SlotData.existingImage urlAttr _ coverAttr _ =>
    usableUrlAttr urlAttr && decide (coverAttr = some "true")
  | _ => false

/-- A hydration form that flags at most one slot as cover (the situation
the surrounding server-rendered form is supposed to produce). -/
abbrev GoodForm (form : HydrationForm) : Prop :=
  ((List.range' 1 maxImages).countP (fun i => slotAddsCover i (form i))) ≤ 1

/-- States reachable from a hydrated state whose form flagged at most one
cover. -/
def GoodReachable (s : GalleryState) : Prop :=
  ∃ form : HydrationForm, GoodForm form ∧ ReachableFrom (hydrate form) s

/-- The slot sequence of a state, in entry order. -/
def slotsOf (s : GalleryState) : List Nat :=
  s.images.map (fun img => img.slot)

/-- The type/URL projection of an entry, unaffected by reordering,
renumbering and cover changes. -/
def imgKey (img : ImageData) : ImgType × Url := (img.imgType, img.url)

/-- The number of entries flagged as cover. -/
def coverCount (s : GalleryState) : Nat :=
  s.images.countP (fun img => img.isCover)

/-- The structural invariants that hold in every reachable state
regardless of what hydration found: slot values are pairwise distinct and
stay within `1..maxImages`; new entries carry pairwise-distinct,
never-yet-revoked object URLs below the allocation counter; the tracked
object-URL set is duplicate-free and below the counter, as is the
revocation log. -/
structure CoreInv (s : GalleryState) : Prop where
  slotsNodup : (slotsOf s).Nodup
  slotsRange : ∀ n ∈ slotsOf s, 1 ≤ n ∧ n ≤ maxImages
  newBlob : ∀ k ∈ s.images.map imgKey, k.1 = ImgType.new →
    ∃ n, k.2 = Url.blob n ∧ n < s.urlCounter
  newDistinct : List.Pairwise
    (fun a b => a.1 = ImgType.new → b.1 = ImgType.new → a.2 ≠ b.2)
    (s.images.map imgKey)
  newNotRevoked : ∀ k ∈ s.images.map imgKey, k.1 = ImgType.new → k.2 ∉ s.revokedUrls
  urlsNodup : s.objectUrls.Nodup
  urlsBlob : ∀ u ∈ s.objectUrls, ∃ n, u = Url.blob n ∧ n < s.urlCounter
  revokedBlob : ∀ u ∈ s.revokedUrls, ∃ n, u = Url.blob n ∧ n < s.urlCounter

/-- The entry list is sorted by slot (`render` sorts it after every
mutation). -/
def SortedOK (s : GalleryState) : Prop :=
  List.Pairwise (fun a b => a.slot ≤ b.slot) s.images

/-- The full structural invariant. -/
def Inv (s : GalleryState) : Prop := CoreInv s ∧ SortedOK s

/-- The single-cover invariant: an empty gallery, or exactly one entry
flagged cover. -/
def CoverOK (s : GalleryState) : Prop :=
  s.images = [] ∨ coverCount s = 1

/-- The pre-render state built by `deleteImageCore`, named so that proofs
can case on its conditionals. -/
def deleteMid (s : GalleryState) (index : Nat) (h : index < s.images.length) :
    GalleryState :=
  { s with
    images :=
      if (s.images.get ⟨index, h⟩).isCover ∧ (s.images.eraseIdx index).length > 0 then
        promoteFirst (s.images.eraseIdx index)
      else s.images.eraseIdx index
    imagesToDelete :=
      if (s.images.get ⟨index, h⟩).imgType = ImgType.existing then
        s.imagesToDelete ++ [(s.images.get ⟨index, h⟩).id]
      else s.imagesToDelete
    objectUrls :=
      if (s.images.get ⟨index, h⟩).imgType = ImgType.new
          ∧ (s.images.get ⟨index, h⟩).url.isBlob then
        s.objectUrls.erase (s.images.get ⟨index, h⟩).url
      else s.objectUrls
    revokedUrls :=
      if (s.images.get ⟨index, h⟩).imgType = ImgType.new
          ∧ (s.images.get ⟨index, h⟩).url.isBlob then
        s.revokedUrls ++ [(s.images.get ⟨index, h⟩).url]
      else s.revokedUrls
    currentCoverSlot :=
      if (s.images.get ⟨index, h⟩).isCover ∧ (s.images.eraseIdx index).length > 0 then
        firstSlot s.currentCoverSlot (s.images.eraseIdx index)
      else if (s.images.eraseIdx index).length = 0 then 1
      else s.currentCoverSlot }

/-- The entry appended by `addNewImage`. -/
def appendedEntry (s : GalleryState) (f : JsFile) : ImageData :=
  { id := "temp-" ++ toString s.nextTempId
    imgType := ImgType.new
    source := Source.file f
    url := Url.blob s.urlCounter
    alt := "Imagen de " ++ stripLastExt f.name
    isCover := decide (s.images.length = 0 ∨ ¬ s.images.any (fun img => img.isCover))
    slot := getNextSlot s
    name := f.name }

/-- An entry with its slot blanked: what reordering may change is exactly
the slot, so this projection is preserved entry-for-entry. -/
def entryCore (img : ImageData) : ImageData := { img with slot := 0 }

/-! ### Concrete fixtures -/

/-- A hydration form with no pre-existing images. -/
def emptyForm : HydrationForm := fun _ => SlotData.empty

/-- A valid PNG candidate file. -/
def pngFile : JsFile := { name := "a.png", mime := "image/png", size := 1000, dims := some (800, 600) }

/-- A valid JPEG candidate file. -/
def jpgFile : JsFile := { name := "b.jpg", mime := "image/jpeg", size := 2000, dims := some (800, 600) }

/-- A valid GIF candidate file. -/
def gifFile : JsFile := { name := "c.gif", mime := "image/gif", size := 3000, dims := some (800, 600) }

/-- A BMP file, outside the accepted MIME set. -/
def bmpFile : JsFile := { name := "d.bmp", mime := "image/bmp", size := 1000, dims := some (800, 600) }

/-- The store after hydrating an empty form. -/
def galleryEmpty : GalleryState := hydrate emptyForm

/-- The store after adding two valid files to an empty gallery. -/
def galleryTwo : GalleryState := (handleFiles galleryEmpty [pngFile, jpgFile]).1

/-- The store after adding three valid files to an empty gallery. -/
def galleryThree : GalleryState := (handleFiles galleryEmpty [pngFile, jpgFile, gifFile]).1

/-- The store after filling all eight slots. -/
def galleryEight : GalleryState :=
  (handleFiles galleryEmpty (List.replicate 8 pngFile)).1

/-- A hydration form whose first two slots both carry
`data-is-cover="true"`. -/
def twoCoverForm : HydrationForm := fun i =>
  if i ≤ 2 then
    SlotData.existingImage ("u" ++ toString i) (some (toString (i + 6))) (some "true") ""
  else SlotData.empty

/-- The store produced by a reorder of the two-entry gallery. -/
def galleryTwoSwapped : GalleryState := (drop galleryTwo (some 0) 1).getD initialState

/-- An all-blank form slot (all three inputs present and empty). -/
def blankSlot : FormSlot :=
  { inputPresent := true, fileValue := "", files := none, dataImageId := none,
    dataImageUrl := none, dataIsCover := none, altPresent := true, altValue := "",
    coverPresent := true, coverValue := "false" }

/-- A form whose slot-1 file input still holds a stale file. -/
def staleForm : FormState :=
  { slots := fun i =>
      if i = 1 then
        { blankSlot with
          files := some pngFile
          fileValue := "C:\\fakepath\\a.png"
          altValue := "old alt"
          coverValue := "true" }
      else blankSlot
    deletedField := none }

/-! ### Basic lemmas about the modelled primitives -/

theorem renderSort_images_perm (s : GalleryState) :
    (renderSort s).images.Perm s.images :=
  List.perm_insertionSort slotLe s.images

theorem renderSort_imagesToDelete (s : GalleryState) :
    (renderSort s).imagesToDelete = s.imagesToDelete := rfl

theorem renderSort_objectUrls (s : GalleryState) :
    (renderSort s).objectUrls = s.objectUrls := rfl

theorem renderSort_revokedUrls (s : GalleryState) :
    (renderSort s).revokedUrls = s.revokedUrls := rfl

theorem renderSort_urlCounter (s : GalleryState) :
    (renderSort s).urlCounter = s.urlCounter := rfl

theorem renderSort_sorted (s : GalleryState) : SortedOK (renderSort s) := by
  have h := List.sorted_insertionSort slotLe s.images
  exact h.imp (fun hab => hab)

/-- A list decomposes at any in-bounds index. -/
theorem list_decomp {α : Type} (l : List α) (i : Nat) (h : i < l.length) :
    l = l.take i ++ l.get ⟨i, h⟩ :: l.drop (i + 1) := by
  have h1 : l.take i ++ l.drop i = l := List.take_append_drop i l
  have h2 : l.get ⟨i, h⟩ :: l.drop (i + 1) = l.drop i := by
    simp only [List.get_eq_getElem]
    exact List.getElem_cons_drop l i h
  rw [h2]
  exact h1.symm

/-- Mapping over `set` is invisible when the projection of the new
element matches that of the old. -/
theorem map_set_middle {α β : Type} (f : α → β) (l : List α) (i : Nat)
    (h : i < l.length) (x : α) (hx : f x = f (l.get ⟨i, h⟩)) :
    (l.set i x).map f = l.map f := by
  have hset : l.set i x = l.take i ++ x :: l.drop (i + 1) := by
    rw [List.set_eq_take_append_cons_drop, if_pos h]
  rw [hset]
  conv_rhs => rw [list_decomp l i h]
  simp only [List.get_eq_getElem] at hx
  simp [hx]
  have h' : i < (l.map f).length := by simpa using h
  have hd := (list_decomp (l.map f) i h').symm
  simpa using hd

theorem renumberFrom_length (l : List ImageData) (k : Nat) :
    (renumberFrom l k).length = l.length := by
  induction l generalizing k with
  | nil => rfl
  | cons x xs ih => simp [renumberFrom, ih]

theorem renumberFrom_map_imgKey (l : List ImageData) (k : Nat) :
    (renumberFrom l k).map imgKey = l.map imgKey := by
  induction l generalizing k with
  | nil => rfl
  | cons x xs ih => simp [renumberFrom, imgKey, ih]

theorem renumberFrom_countP_isCover (l : List ImageData) (k : Nat) :
    (renumberFrom l k).countP (fun img => img.isCover)
      = l.countP (fun img => img.isCover) := by
  induction l generalizing k with
  | nil => rfl
  | cons x xs ih => simp [renumberFrom, List.countP_cons, ih]

theorem renumberFrom_map_slot (l : List ImageData) (k : Nat) :
    (renumberFrom l k).map (fun img => img.slot) = List.range' k l.length := by
  induction l generalizing k with
  | nil => rfl
  | cons x xs ih => simp [renumberFrom, List.range'_succ, ih]

theorem renumberFrom_map_idCover (l : List ImageData) (k : Nat) :
    (renumberFrom l k).map (fun img => (img.id, img.isCover))
      = l.map (fun img => (img.id, img.isCover)) := by
  induction l generalizing k with
  | nil => rfl
  | cons x xs ih => simp [renumberFrom, ih]

/-- A duplicate-free list of slot numbers drawn from `1..maxImages` has
at most `maxImages` elements. -/
theorem length_le_maxImages_of_nodup (l : List Nat) (hn : l.Nodup)
    (hr : ∀ n ∈ l, 1 ≤ n ∧ n ≤ maxImages) : l.length ≤ maxImages := by
  classical
  have hsub : l.toFinset ⊆ Finset.Icc 1 maxImages := by
    intro n hn'
    rcases hr n (List.mem_toFinset.mp hn') with ⟨h1, h2⟩
    exact Finset.mem_Icc.mpr ⟨h1, h2⟩
  have hcard := Finset.card_le_card hsub
  rw [List.toFinset_card_of_nodup hn, Nat.card_Icc] at hcard
  simpa using hcard

/-! ### Invariant transfer -/

/-- All `CoreInv` fields factor through the slot sequence, the type/URL
projection, and the URL bookkeeping fields; they are invariant under any
change of the entry list that permutes those projections. -/
theorem coreInv_transfer {s s' : GalleryState} (h : CoreInv s)
    (hslots : (slotsOf s').Perm (slotsOf s))
    (hkeys : (s'.images.map imgKey).Perm (s.images.map imgKey))
    (hobj : s'.objectUrls = s.objectUrls)
    (hrev : s'.revokedUrls = s.revokedUrls)
    (hctr : s'.urlCounter = s.urlCounter) : CoreInv s' := by
  constructor
  · exact hslots.nodup_iff.mpr h.slotsNodup
  · intro n hn
    exact h.slotsRange n (hslots.mem_iff.mp hn)
  · intro k hk hnew
    rw [hctr]
    exact h.newBlob k (hkeys.mem_iff.mp hk) hnew
  · refine (hkeys.pairwise_iff ?_).mpr h.newDistinct
    intro x y hxy hy hx
    exact (hxy hx hy).symm
  · intro k hk hnew
    rw [hrev]
    exact h.newNotRevoked k (hkeys.mem_iff.mp hk) hnew
  · rw [hobj]
    exact h.urlsNodup
  · intro u hu
    rw [hctr]
    exact h.urlsBlob u (hobj ▸ hu)
  · intro u hu
    rw [hctr]
    exact h.revokedBlob u (hrev ▸ hu)

theorem coreInv_renderSort {s : GalleryState} (h : CoreInv s) :
    CoreInv (renderSort s) :=
  coreInv_transfer h ((renderSort_images_perm s).map _)
    ((renderSort_images_perm s).map _) rfl rfl rfl

theorem coverOK_perm {s s' : GalleryState} (h : CoverOK s)
    (hperm : s'.images.Perm s.images) : CoverOK s' := by
  cases h with
  | inl h0 =>
    left
    exact (h0 ▸ hperm).eq_nil
  | inr h1 =>
    right
    unfold coverCount at *
    rw [hperm.countP_eq]
    exact h1

theorem coverOK_renderSort {s : GalleryState} (h : CoverOK s) :
    CoverOK (renderSort s) :=
  coverOK_perm h (renderSort_images_perm s)

/-- An entry-list entry count bound from slot distinctness. -/
theorem images_length_le {s : GalleryState} (h : CoreInv s) :
    s.images.length ≤ maxImages := by
  have := length_le_maxImages_of_nodup (slotsOf s) h.slotsNodup h.slotsRange
  simpa [slotsOf] using this

/-! ### Preservation: `setAsCover` -/

theorem setAsCover_eq_pos {s : GalleryState} {i : Nat} (h : i < s.images.length) :
    setAsCover s i = renderSort
      { s with
        images := (s.images.map (fun img => { img with isCover := false })).set i
            { s.images.get ⟨i, h⟩ with isCover := true }
        currentCoverSlot := (s.images.get ⟨i, h⟩).slot } := by
  simp only [setAsCover, dif_pos h]

theorem setAsCover_eq_neg {s : GalleryState} {i : Nat} (h : ¬ i < s.images.length) :
    setAsCover s i = s := by
  simp only [setAsCover, dif_neg h]

/-- Projections that ignore `isCover` see through the
clear-all-then-set-one dance of `setAsCover`. -/
theorem map_clear_set {β : Type} (f : ImageData → β)
    (hf : ∀ (img : ImageData) (b : Bool), f { img with isCover := b } = f img)
    (l : List ImageData) (i : Nat) (h : i < l.length) :
    ((l.map (fun img => { img with isCover := false })).set i
        { l.get ⟨i, h⟩ with isCover := true }).map f = l.map f := by
  have hlen : i < (l.map (fun img => { img with isCover := false })).length := by
    simpa using h
  have hx : f { l.get ⟨i, h⟩ with isCover := true }
      = f ((l.map (fun img => { img with isCover := false })).get ⟨i, hlen⟩) := by
    simp only [List.get_eq_getElem, List.getElem_map]
    rw [hf]
    exact (hf _ false).symm
  rw [map_set_middle f _ i hlen _ hx, List.map_map]
  exact List.map_congr_left (fun img _ => hf img false)

theorem coreInv_setAsCover {s : GalleryState} (h : CoreInv s) (i : Nat) :
    CoreInv (setAsCover s i) := by
  by_cases hlt : i < s.images.length
  · rw [setAsCover_eq_pos hlt]
    apply coreInv_renderSort
    refine coreInv_transfer h ?_ ?_ rfl rfl rfl
    · apply List.Perm.of_eq
      exact map_clear_set (fun img => img.slot) (fun img b => rfl) s.images i hlt
    · apply List.Perm.of_eq
      exact map_clear_set imgKey (fun img b => rfl) s.images i hlt
  · rw [setAsCover_eq_neg hlt]
    exact h

theorem coverOK_setAsCover {s : GalleryState} (h : CoverOK s) (i : Nat) :
    CoverOK (setAsCover s i) := by
  by_cases hlt : i < s.images.length
  · rw [setAsCover_eq_pos hlt]
    apply coverOK_renderSort
    right
    unfold coverCount
    have hlen : i < (s.images.map (fun img => { img with isCover := false })).length := by
      simpa using hlt
    rw [List.set_eq_take_append_cons_drop, if_pos hlen]
    rw [List.countP_append, List.countP_cons]
    have hclear : ∀ a ∈ s.images.map (fun img => { img with isCover := false }),
        a.isCover = false := by
      intro a ha
      rcases List.mem_map.mp ha with ⟨b, _, rfl⟩
      rfl
    have htake : List.countP (fun img => img.isCover)
        (List.take i (s.images.map (fun img => { img with isCover := false }))) = 0 := by
      rw [List.countP_eq_zero]
      intro a ha
      simp [hclear a (List.take_subset i _ ha)]
    have hdrop : List.countP (fun img => img.isCover)
        (List.drop (i + 1) (s.images.map (fun img => { img with isCover := false }))) = 0 := by
      rw [List.countP_eq_zero]
      intro a ha
      simp [hclear a (List.drop_subset (i + 1) _ ha)]
    simp [htake, hdrop]
  · rw [setAsCover_eq_neg hlt]
    exact h

/-! ### Preservation: `deleteImage` -/

theorem promoteFirst_map {β : Type} (f : ImageData → β)
    (hf : ∀ (img : ImageData) (b : Bool), f { img with isCover := b } = f img)
    (l : List ImageData) : (promoteFirst l).map f = l.map f := by
  cases l with
  | nil => rfl
  | cons a rest =>
    show f { a with isCover := true } :: rest.map f = f a :: rest.map f
    rw [hf]

theorem ite_promote_map {β : Type} (f : ImageData → β)
    (hf : ∀ (img : ImageData) (b : Bool), f { img with isCover := b } = f img)
    (c : Prop) [Decidable c] (l : List ImageData) :
    (if c then promoteFirst l else l).map f = l.map f := by
  by_cases hc : c
  · rw [if_pos hc, promoteFirst_map f hf]
  · rw [if_neg hc]

/-- The keys of the entries surviving a splice at a `new` entry differ
from the spliced entry's URL. -/
theorem eraseIdx_keys_ne {s : GalleryState} (h : CoreInv s) {i : Nat}
    (hlt : i < s.images.length)
    (hD : (s.images.get ⟨i, hlt⟩).imgType = ImgType.new) :
    ∀ k ∈ (s.images.eraseIdx i).map imgKey, k.1 = ImgType.new →
      k.2 ≠ (s.images.get ⟨i, hlt⟩).url := by
  intro k hk hknew
  have h' : i < (s.images.map imgKey).length := by simpa using hlt
  have hkeys : s.images.map imgKey
      = List.take i (s.images.map imgKey)
        ++ imgKey (s.images.get ⟨i, hlt⟩) :: List.drop (i + 1) (s.images.map imgKey) := by
    have := list_decomp (s.images.map imgKey) i h'
    simpa [imgKey] using this
  have hpw := h.newDistinct
  rw [hkeys, List.pairwise_append] at hpw
  rcases hpw with ⟨hp1, hp2, hcross⟩
  rw [List.pairwise_cons] at hp2
  rcases hp2 with ⟨hhead, _⟩
  rw [List.eraseIdx_eq_take_drop_succ, List.map_append, List.map_take, List.map_drop] at hk
  have hDkey : (imgKey (s.images.get ⟨i, hlt⟩)).1 = ImgType.new := hD
  rcases List.mem_append.mp hk with hmem | hmem
  · exact hcross k hmem _ (List.mem_cons_self _ _) hknew hDkey
  · intro hEq
    exact (hhead k hmem hDkey hknew) hEq.symm

theorem deleteImageCore_eq {s : GalleryState} {i : Nat} (hlt : i < s.images.length) :
    deleteImageCore s i hlt = renderSort (deleteMid s i hlt) := rfl

theorem coreInv_deleteImageCore {s : GalleryState} {i : Nat}
    (hlt : i < s.images.length) (h : CoreInv s) :
    CoreInv (deleteImageCore s i hlt) := by
  rw [deleteImageCore_eq]
  apply coreInv_renderSort
  have hsub : (s.images.eraseIdx i).Sublist s.images := List.eraseIdx_sublist s.images i
  have hkeysub : ((s.images.eraseIdx i).map imgKey).Sublist (s.images.map imgKey) :=
    hsub.map imgKey
  have hslotmap : (deleteMid s i hlt).images.map (fun img => img.slot)
      = (s.images.eraseIdx i).map (fun img => img.slot) :=
    ite_promote_map (fun img => img.slot) (fun img b => rfl) _ _
  have hkeymap : (deleteMid s i hlt).images.map imgKey
      = (s.images.eraseIdx i).map imgKey :=
    ite_promote_map imgKey (fun img b => rfl) _ _
  have hobj : (deleteMid s i hlt).objectUrls
      = if (s.images.get ⟨i, hlt⟩).imgType = ImgType.new
            ∧ (s.images.get ⟨i, hlt⟩).url.isBlob then
          s.objectUrls.erase (s.images.get ⟨i, hlt⟩).url
        else s.objectUrls := rfl
  have hrev : (deleteMid s i hlt).revokedUrls
      = if (s.images.get ⟨i, hlt⟩).imgType = ImgType.new
            ∧ (s.images.get ⟨i, hlt⟩).url.isBlob then
          s.revokedUrls ++ [(s.images.get ⟨i, hlt⟩).url]
        else s.revokedUrls := rfl
  have hctr : (deleteMid s i hlt).urlCounter = s.urlCounter := rfl
  constructor
  · show ((deleteMid s i hlt).images.map (fun img => img.slot)).Nodup
    rw [hslotmap]
    exact (hsub.map _).nodup h.slotsNodup
  · intro n hn
    have hn' : n ∈ (s.images.eraseIdx i).map (fun img => img.slot) := by
      rw [← hslotmap]
      exact hn
    exact h.slotsRange n ((hsub.map _).subset hn')
  · intro k hk hknew
    rw [hkeymap] at hk
    rw [hctr]
    exact h.newBlob k (hkeysub.subset hk) hknew
  · rw [hkeymap]
    exact h.newDistinct.sublist hkeysub
  · intro k hk hknew
    rw [hkeymap] at hk
    rw [hrev]
    by_cases hnb : (s.images.get ⟨i, hlt⟩).imgType = ImgType.new
        ∧ ((s.images.get ⟨i, hlt⟩).url.isBlob : Prop)
    · rw [if_pos hnb]
      intro hmem
      rcases List.mem_append.mp hmem with hmem1 | hmem1
      · exact h.newNotRevoked k (hkeysub.subset hk) hknew hmem1
      · have := eraseIdx_keys_ne h hlt hnb.1 k hk hknew
        simp only [List.mem_singleton] at hmem1
        exact this hmem1
    · rw [if_neg hnb]
      exact h.newNotRevoked k (hkeysub.subset hk) hknew
  · rw [hobj]
    by_cases hnb : (s.images.get ⟨i, hlt⟩).imgType = ImgType.new
        ∧ ((s.images.get ⟨i, hlt⟩).url.isBlob : Prop)
    · rw [if_pos hnb]
      exact h.urlsNodup.erase _
    · rw [if_neg hnb]
      exact h.urlsNodup
  · intro u hu
    rw [hobj] at hu
    rw [hctr]
    by_cases hnb : (s.images.get ⟨i, hlt⟩).imgType = ImgType.new
        ∧ ((s.images.get ⟨i, hlt⟩).url.isBlob : Prop)
    · rw [if_pos hnb] at hu
      exact h.urlsBlob u ((List.erase_sublist _ _).subset hu)
    · rw [if_neg hnb] at hu
      exact h.urlsBlob u hu
  · intro u hu
    rw [hrev] at hu
    rw [hctr]
    by_cases hnb : (s.images.get ⟨i, hlt⟩).imgType = ImgType.new
        ∧ ((s.images.get ⟨i, hlt⟩).url.isBlob : Prop)
    · rw [if_pos hnb] at hu
      rcases List.mem_append.mp hu with hu1 | hu1
      · exact h.revokedBlob u hu1
      · simp only [List.mem_singleton] at hu1
        subst hu1
        have hkmem : imgKey (s.images.get ⟨i, hlt⟩) ∈ s.images.map imgKey :=
          List.mem_map_of_mem imgKey (s.images.get_mem i _)
        exact h.newBlob _ hkmem hnb.1
    · rw [if_neg hnb] at hu
      exact h.revokedBlob u hu

theorem coreInv_deleteImage {s : GalleryState} (h : CoreInv s) (i : Nat) :
    CoreInv (deleteImage s i) := by
  unfold deleteImage
  by_cases hlt : i < s.images.length
  · rw [dif_pos hlt]
    exact coreInv_deleteImageCore hlt h
  · rw [dif_neg hlt]
    exact h

theorem countP_promoteFirst_cons (a : ImageData) (rest : List ImageData) :
    (promoteFirst (a :: rest)).countP (fun img => img.isCover)
      = rest.countP (fun img => img.isCover) + 1 := by
  show List.countP _ ({ a with isCover := true } :: rest) = _
  rw [List.countP_cons]
  simp

/-- The cover count splits around the spliced index. -/
theorem coverCount_decomp {s : GalleryState} {i : Nat} (hlt : i < s.images.length) :
    coverCount s
      = (s.images.eraseIdx i).countP (fun img => img.isCover)
        + (if (s.images.get ⟨i, hlt⟩).isCover then 1 else 0) := by
  unfold coverCount
  conv_lhs => rw [list_decomp s.images i hlt]
  rw [List.eraseIdx_eq_take_drop_succ]
  rw [List.countP_append, List.countP_cons, List.countP_append]
  omega

theorem coverOK_deleteImageCore {s : GalleryState} {i : Nat}
    (hlt : i < s.images.length) (h : CoverOK s) :
    CoverOK (deleteImageCore s i hlt) := by
  rw [deleteImageCore_eq]
  apply coverOK_renderSort
  have hne : s.images ≠ [] := by
    intro h0
    rw [h0] at hlt
    exact absurd hlt (by simp)
  have hcount : coverCount s = 1 := by
    cases h with
    | inl h0 => exact absurd h0 hne
    | inr h1 => exact h1
  have hdecomp := coverCount_decomp hlt
  by_cases hb : (s.images.get ⟨i, hlt⟩).isCover = true
  · -- the deleted entry was the unique cover
    have hrem : (s.images.eraseIdx i).countP (fun img => img.isCover) = 0 := by
      rw [hdecomp, if_pos hb] at hcount
      omega
    cases hR : s.images.eraseIdx i with
    | nil =>
      left
      show (if _ then _ else _) = []
      rw [hR]
      simp [promoteFirst]
    | cons first rest =>
      right
      show List.countP _ (if (s.images.get ⟨i, hlt⟩).isCover
          ∧ (s.images.eraseIdx i).length > 0 then promoteFirst (s.images.eraseIdx i)
        else s.images.eraseIdx i) = 1
      rw [if_pos ⟨hb, by rw [hR]; simp⟩, hR, countP_promoteFirst_cons]
      have : List.countP (fun img => img.isCover) (first :: rest) = 0 := by
        rw [← hR]
        exact hrem
      rw [List.countP_cons] at this
      omega
  · -- a non-cover entry was deleted
    right
    have hb' : ¬ ((s.images.get ⟨i, hlt⟩).isCover
        ∧ (s.images.eraseIdx i).length > 0) := by
      intro hcontra
      exact hb hcontra.1
    show List.countP _ (if (s.images.get ⟨i, hlt⟩).isCover
        ∧ (s.images.eraseIdx i).length > 0 then promoteFirst (s.images.eraseIdx i)
      else s.images.eraseIdx i) = 1
    rw [if_neg hb']
    rw [hdecomp, if_neg hb] at hcount
    omega

theorem coverOK_deleteImage {s : GalleryState} (h : CoverOK s) (i : Nat) :
    CoverOK (deleteImage s i) := by
  unfold deleteImage
  by_cases hlt : i < s.images.length
  · rw [dif_pos hlt]
    exact coverOK_deleteImageCore hlt h
  · rw [dif_neg hlt]
    exact h

/-! ### Preservation: `addNewImage` and the slot allocator -/

theorem firstUnusedSlot_some {used : List Nat} {lo fuel j : Nat}
    (h : firstUnusedSlot used lo fuel = some j) :
    j ∉ used ∧ lo ≤ j ∧ j < lo + fuel ∧ ∀ k, lo ≤ k → k < j → k ∈ used := by
  induction fuel generalizing lo with
  | zero => exact absurd h (by simp [firstUnusedSlot])
  | succ n ih =>
    rw [firstUnusedSlot] at h
    by_cases hc : used.contains lo
    · rw [if_pos hc] at h
      rcases ih h with ⟨h1, h2, h3, h4⟩
      refine ⟨h1, by omega, by omega, ?_⟩
      intro k hk1 hk2
      by_cases hk : lo + 1 ≤ k
      · exact h4 k hk hk2
      · have : k = lo := by omega
        subst this
        exact List.mem_of_elem_eq_true hc
    · rw [if_neg hc] at h
      injection h with h
      subst h
      refine ⟨fun hmem => hc (List.elem_eq_true_of_mem hmem), le_refl _, by omega, ?_⟩
      intro k hk1 hk2
      omega

theorem firstUnusedSlot_none {used : List Nat} {lo fuel : Nat}
    (h : firstUnusedSlot used lo fuel = none) :
    ∀ k, lo ≤ k → k < lo + fuel → k ∈ used := by
  induction fuel generalizing lo with
  | zero => intro k h1 h2; omega
  | succ n ih =>
    rw [firstUnusedSlot] at h
    by_cases hc : used.contains lo
    · rw [if_pos hc] at h
      intro k h1 h2
      by_cases hk : lo + 1 ≤ k
      · exact ih h k hk (by omega)
      · have : k = lo := by omega
        subst this
        exact List.mem_of_elem_eq_true hc
    · rw [if_neg hc] at h
      exact absurd h (by simp)

/-- When a slot in `1..maxImages` is free, `getNextSlot` returns the least
free slot. -/
theorem getNextSlot_least {s : GalleryState} {j : Nat}
    (hj1 : 1 ≤ j) (hj2 : j ≤ maxImages)
    (hfree : j ∉ slotsOf s) :
    1 ≤ getNextSlot s ∧ getNextSlot s ≤ maxImages ∧ getNextSlot s ∉ slotsOf s ∧
      ∀ k, 1 ≤ k → k < getNextSlot s → k ∈ slotsOf s := by
  unfold getNextSlot
  by_cases h0 : s.images.length = 0
  · rw [if_pos h0]
    have hnil : slotsOf s = [] := by
      unfold slotsOf
      rw [List.length_eq_zero.mp h0]
      rfl
    refine ⟨le_refl _, by simp [maxImages], by simp [hnil], ?_⟩
    intro k hk1 hk2
    omega
  · rw [if_neg h0]
    dsimp only
    cases hfu : firstUnusedSlot (s.images.map (fun img => img.slot)) 1 maxImages with
    | some v =>
      rcases firstUnusedSlot_some hfu with ⟨h1, h2, h3, h4⟩
      have hmax : v ≤ maxImages := by omega
      exact ⟨h2, hmax, h1, h4⟩
    | none =>
      exfalso
      have hall := firstUnusedSlot_none hfu
      exact hfree (hall j hj1 (by omega))

/-- A gallery below capacity always has a free slot in `1..maxImages`. -/
theorem exists_free_slot {s : GalleryState} (h : CoreInv s)
    (hlen : s.images.length < maxImages) :
    ∃ j, 1 ≤ j ∧ j ≤ maxImages ∧ j ∉ slotsOf s := by
  classical
  by_contra hc
  push_neg at hc
  have hsub : (List.range' 1 maxImages).toFinset ⊆ (slotsOf s).toFinset := by
    intro k hk
    have hk' := List.mem_range'_1.mp (List.mem_toFinset.mp hk)
    exact List.mem_toFinset.mpr (hc k hk'.1 (by omega))
  have hcard := Finset.card_le_card hsub
  rw [List.toFinset_card_of_nodup (List.nodup_range' 1 maxImages),
      List.toFinset_card_of_nodup h.slotsNodup] at hcard
  have hslen : (slotsOf s).length = s.images.length := by
    unfold slotsOf
    simp
  rw [List.length_range'] at hcard
  omega

theorem addNewImage_images (s : GalleryState) (f : JsFile) :
    (addNewImage s f).images = s.images ++ [appendedEntry s f] := rfl

theorem addNewImage_objectUrls (s : GalleryState) (f : JsFile) :
    (addNewImage s f).objectUrls = s.objectUrls ++ [Url.blob s.urlCounter] := rfl

theorem addNewImage_revokedUrls (s : GalleryState) (f : JsFile) :
    (addNewImage s f).revokedUrls = s.revokedUrls := rfl

theorem addNewImage_urlCounter (s : GalleryState) (f : JsFile) :
    (addNewImage s f).urlCounter = s.urlCounter + 1 := rfl

theorem addNewImage_imagesToDelete (s : GalleryState) (f : JsFile) :
    (addNewImage s f).imagesToDelete = s.imagesToDelete := rfl

theorem addNewImage_length (s : GalleryState) (f : JsFile) :
    (addNewImage s f).images.length = s.images.length + 1 := by
  rw [addNewImage_images]
  simp

theorem coreInv_addNewImage {s : GalleryState} (h : CoreInv s) (f : JsFile)
    (hlen : s.images.length < maxImages) : CoreInv (addNewImage s f) := by
  rcases exists_free_slot h hlen with ⟨j, hj1, hj2, hjfree⟩
  rcases getNextSlot_least hj1 hj2 hjfree with ⟨g1, g2, g3, _⟩
  have hslots : slotsOf (addNewImage s f) = slotsOf s ++ [getNextSlot s] := by
    unfold slotsOf
    rw [addNewImage_images]
    simp [appendedEntry]
  have hkeys : (addNewImage s f).images.map imgKey
      = s.images.map imgKey ++ [(ImgType.new, Url.blob s.urlCounter)] := by
    rw [addNewImage_images]
    simp [appendedEntry, imgKey]
  constructor
  · rw [hslots, List.nodup_append]
    refine ⟨h.slotsNodup, List.nodup_singleton _, ?_⟩
    intro a ha hb
    rw [List.mem_singleton] at hb
    subst hb
    exact g3 ha
  · intro n hn
    rw [hslots] at hn
    rcases List.mem_append.mp hn with hn1 | hn1
    · exact h.slotsRange n hn1
    · rw [List.mem_singleton] at hn1
      subst hn1
      exact ⟨g1, g2⟩
  · intro k hk hknew
    rw [hkeys] at hk
    rw [addNewImage_urlCounter]
    rcases List.mem_append.mp hk with hk1 | hk1
    · rcases h.newBlob k hk1 hknew with ⟨n, hn1, hn2⟩
      exact ⟨n, hn1, by omega⟩
    · rw [List.mem_singleton] at hk1
      subst hk1
      exact ⟨s.urlCounter, rfl, by omega⟩
  · rw [hkeys, List.pairwise_append]
    refine ⟨h.newDistinct, List.pairwise_singleton _ _, ?_⟩
    intro a ha b hb hanew hbnew
    rw [List.mem_singleton] at hb
    subst hb
    rcases h.newBlob a ha hanew with ⟨n, hn1, hn2⟩
    rw [hn1]
    intro hEq
    rw [Url.blob.injEq] at hEq
    omega
  · intro k hk hknew
    rw [hkeys] at hk
    rw [addNewImage_revokedUrls]
    rcases List.mem_append.mp hk with hk1 | hk1
    · exact h.newNotRevoked k hk1 hknew
    · rw [List.mem_singleton] at hk1
      subst hk1
      intro hmem
      rcases h.revokedBlob _ hmem with ⟨n, hn1, hn2⟩
      rw [Url.blob.injEq] at hn1
      omega
  · rw [addNewImage_objectUrls, List.nodup_append]
    refine ⟨h.urlsNodup, List.nodup_singleton _, ?_⟩
    intro a ha hb
    rw [List.mem_singleton] at hb
    subst hb
    rcases h.urlsBlob _ ha with ⟨n, hn1, hn2⟩
    rw [Url.blob.injEq] at hn1
    omega
  · intro u hu
    rw [addNewImage_objectUrls] at hu
    rw [addNewImage_urlCounter]
    rcases List.mem_append.mp hu with hu1 | hu1
    · rcases h.urlsBlob u hu1 with ⟨n, hn1, hn2⟩
      exact ⟨n, hn1, by omega⟩
    · rw [List.mem_singleton] at hu1
      subst hu1
      exact ⟨s.urlCounter, rfl, by omega⟩
  · intro u hu
    rw [addNewImage_revokedUrls] at hu
    rw [addNewImage_urlCounter]
    rcases h.revokedBlob u hu with ⟨n, hn1, hn2⟩
    exact ⟨n, hn1, by omega⟩

theorem coverOK_addNewImage {s : GalleryState} (h : CoverOK s) (f : JsFile) :
    CoverOK (addNewImage s f) := by
  right
  unfold coverCount
  rw [addNewImage_images, List.countP_append]
  cases h with
  | inl h0 =>
    simp [appendedEntry, h0]
  | inr h1 =>
    have hany : s.images.any (fun img => img.isCover) = true := by
      rw [List.any_eq_true]
      have hpos : 0 < s.images.countP (fun img => img.isCover) := by
        unfold coverCount at h1
        omega
      exact List.countP_pos_iff.mp hpos
    have hne : ¬ s.images = [] := by
      intro h0
      unfold coverCount at h1
      rw [h0] at h1
      simp at h1
    unfold coverCount at h1
    rw [h1]
    simp [appendedEntry, hany, hne]

/-! ### Preservation: `processFiles` and `handleFiles` -/

theorem processFiles_coreInv_len (files : List JsFile) :
    ∀ (s : GalleryState) (acc : List Notification × Nat × Nat),
      CoreInv s → s.images.length + files.length ≤ maxImages →
      CoreInv (processFiles s files acc).1 ∧
        (processFiles s files acc).1.images.length ≤ s.images.length + files.length := by
  induction files with
  | nil =>
    intro s acc h hlen
    exact ⟨h, by simp [processFiles]⟩
  | cons f rest ih =>
    intro s acc h hlen
    obtain ⟨n, c, w⟩ := acc
    rw [processFiles]
    cases hv : validateImageFile f with
    | error msg =>
      have hlen' : s.images.length + rest.length ≤ maxImages := by
        simp only [List.length_cons] at hlen
        omega
      have := ih s (n ++ [⟨msg, NotifType.error⟩], c, w) h hlen'
      refine ⟨this.1, ?_⟩
      show (processFiles s rest (n ++ [⟨msg, NotifType.error⟩], c, w)).1.images.length
        ≤ s.images.length + (f :: rest).length
      simp only [List.length_cons]
      omega
    | ok u =>
      have hlt : s.images.length < maxImages := by
        simp only [List.length_cons] at hlen
        omega
      have h1 : CoreInv (addNewImage s f) := coreInv_addNewImage h f hlt
      have hlen1 : (addNewImage s f).images.length + rest.length ≤ maxImages := by
        rw [addNewImage_length]
        simp only [List.length_cons] at hlen
        omega
      have := ih (addNewImage s f) (n, c + 1, if f.size > bgMaxSize then w + 1 else w) h1 hlen1
      refine ⟨this.1, ?_⟩
      have hb := this.2
      rw [addNewImage_length] at hb
      show (processFiles (addNewImage s f) rest
          (n, c + 1, if f.size > bgMaxSize then w + 1 else w)).1.images.length
        ≤ s.images.length + (f :: rest).length
      simp only [List.length_cons]
      omega

theorem processFiles_coverOK (files : List JsFile) :
    ∀ (s : GalleryState) (acc : List Notification × Nat × Nat),
      CoverOK s → CoverOK (processFiles s files acc).1 := by
  induction files with
  | nil =>
    intro s acc h
    exact h
  | cons f rest ih =>
    intro s acc h
    obtain ⟨n, c, w⟩ := acc
    rw [processFiles]
    cases hv : validateImageFile f with
    | error msg => exact ih s _ h
    | ok u => exact ih (addNewImage s f) _ (coverOK_addNewImage h f)

theorem processFiles_succ_mono (files : List JsFile) :
    ∀ (s : GalleryState) (n : List Notification) (c w : Nat),
      c ≤ (processFiles s files (n, c, w)).2.2.1 := by
  induction files with
  | nil =>
    intro s n c w
    exact le_refl c
  | cons f rest ih =>
    intro s n c w
    rw [processFiles]
    cases hv : validateImageFile f with
    | error msg => exact ih s _ c w
    | ok u =>
      have := ih (addNewImage s f) n (c + 1) (if f.size > bgMaxSize then w + 1 else w)
      show c ≤ (processFiles (addNewImage s f) rest
        (n, c + 1, if f.size > bgMaxSize then w + 1 else w)).2.2.1
      omega

theorem processFiles_state_of_no_success (files : List JsFile) :
    ∀ (s : GalleryState) (n : List Notification) (c w : Nat),
      (processFiles s files (n, c, w)).2.2.1 = c →
      (processFiles s files (n, c, w)).1 = s := by
  induction files with
  | nil =>
    intro s n c w _
    rfl
  | cons f rest ih =>
    intro s n c w hzero
    rw [processFiles] at hzero ⊢
    cases hv : validateImageFile f with
    | error msg =>
      rw [hv] at hzero
      exact ih s _ c w hzero
    | ok u =>
      exfalso
      rw [hv] at hzero
      have hmono := processFiles_succ_mono rest (addNewImage s f) n (c + 1)
        (if f.size > bgMaxSize then w + 1 else w)
      have hzero' : (processFiles (addNewImage s f) rest
          (n, c + 1, if f.size > bgMaxSize then w + 1 else w)).2.2.1 = c := hzero
      omega

theorem handleFiles_inv {s : GalleryState} (h : Inv s) (files : List JsFile) :
    Inv (handleFiles s files).1 := by
  unfold handleFiles
  by_cases hfull : availableSlotsOf s ≤ 0
  · rw [if_pos hfull]
    exact h
  · rw [if_neg hfull]
    simp only [handleFilesGo]
    have hlen : s.images.length + (files.take (availableSlotsOf s).toNat).length
        ≤ maxImages := by
      have h1 : (files.take (availableSlotsOf s).toNat).length
          ≤ (availableSlotsOf s).toNat := by
        simp
      unfold availableSlotsOf at *
      omega
    have hcore := processFiles_coreInv_len (files.take (availableSlotsOf s).toNat) s
      ([], 0, 0) h.1 hlen
    by_cases hsucc :
        (processFiles s (files.take (availableSlotsOf s).toNat) ([], 0, 0)).2.2.1 > 0
    · rw [if_pos hsucc]
      exact ⟨coreInv_renderSort hcore.1, renderSort_sorted _⟩
    · rw [if_neg hsucc]
      have hzero :
          (processFiles s (files.take (availableSlotsOf s).toNat) ([], 0, 0)).2.2.1 = 0 := by
        omega
      rw [processFiles_state_of_no_success _ s [] 0 0 hzero]
      exact h

theorem handleFiles_coverOK {s : GalleryState} (h : CoverOK s) (files : List JsFile) :
    CoverOK (handleFiles s files).1 := by
  unfold handleFiles
  by_cases hfull : availableSlotsOf s ≤ 0
  · rw [if_pos hfull]
    exact h
  · rw [if_neg hfull]
    simp only [handleFilesGo]
    have hcov := processFiles_coverOK (files.take (availableSlotsOf s).toNat) s ([], 0, 0) h
    by_cases hsucc :
        (processFiles s (files.take (availableSlotsOf s).toNat) ([], 0, 0)).2.2.1 > 0
    · rw [if_pos hsucc]
      exact coverOK_renderSort hcov
    · rw [if_neg hsucc]
      exact hcov

/-! ### Preservation: `drop` (reorder) -/

theorem jsSpliceRemoveOne_spec {l : List ImageData} {start : Int} {moved : ImageData}
    (h : (jsSpliceRemoveOne l start).2 = some moved) :
    l.Perm (moved :: (jsSpliceRemoveOne l start).1)
      ∧ (jsSpliceRemoveOne l start).1.length + 1 = l.length := by
  have hget : l.get? (jsClampIndex l.length start) = some moved := h
  rw [List.get?_eq_some] at hget
  rcases hget with ⟨ha, hmoved⟩
  constructor
  · have hfst : (jsSpliceRemoveOne l start).1
        = l.take (jsClampIndex l.length start)
          ++ l.drop (jsClampIndex l.length start + 1) := rfl
    rw [hfst]
    have hdec := list_decomp l (jsClampIndex l.length start) ha
    rw [hmoved] at hdec
    conv_lhs => rw [hdec]
    exact List.perm_middle
  · have hfst : (jsSpliceRemoveOne l start).1
        = l.take (jsClampIndex l.length start)
          ++ l.drop (jsClampIndex l.length start + 1) := rfl
    rw [hfst]
    simp only [List.length_append, List.length_take, List.length_drop]
    omega

theorem jsSpliceInsertOne_perm (l : List ImageData) (start : Int) (x : ImageData) :
    (jsSpliceInsertOne l start x).Perm (x :: l) := by
  have hins : jsSpliceInsertOne l start x
      = l.take (jsClampIndex l.length start) ++ x :: l.drop (jsClampIndex l.length start) := by
    show l.take (jsClampIndex l.length start) ++ [x] ++ l.drop (jsClampIndex l.length start) = _
    simp
  rw [hins]
  have := @List.perm_middle _ x (l.take (jsClampIndex l.length start))
    (l.drop (jsClampIndex l.length start))
  rw [List.take_append_drop] at this
  exact this

/-- When a card drop actually moves an entry, the resulting (pre-sort)
entry list is a slot-renumbering of a permutation of the original. -/
theorem drop_some_eq {s s' : GalleryState} {di ti : Int}
    (hne : di ≠ ti) (h : drop s (some di) ti = some s') :
    ∃ moved, (jsSpliceRemoveOne s.images di).2 = some moved
      ∧ s' = renderSort
          { s with
            images := renumberFrom
              (jsSpliceInsertOne (jsSpliceRemoveOne s.images di).1 ti moved) 1
            currentCoverSlot :=
              if moved.isCover then
                jsClampIndex (jsSpliceRemoveOne s.images di).1.length ti + 1
              else s.currentCoverSlot } := by
  rw [drop] at h
  rw [if_neg hne] at h
  dsimp only at h
  cases hrem : (jsSpliceRemoveOne s.images di).2 with
  | none =>
    rw [hrem] at h
    exact absurd h (by simp)
  | some moved =>
    rw [hrem] at h
    refine ⟨moved, rfl, ?_⟩
    injection h with h
    exact h.symm

theorem drop_none_eq {s s' : GalleryState} {ti : Int}
    (h : drop s none ti = some s') : s' = s := by
  rw [drop] at h
  injection h with h
  exact h.symm

theorem drop_eq_self {s : GalleryState} (ti : Int) : drop s (some ti) ti = some s := by
  rw [drop, if_pos rfl]

theorem inv_drop {s s' : GalleryState} {di : Option Int} {ti : Int}
    (h : Inv s) (hd : drop s di ti = some s') : Inv s' := by
  cases di with
  | none =>
    rw [drop_none_eq hd]
    exact h
  | some d =>
    by_cases hne : d = ti
    · subst hne
      rw [drop_eq_self d] at hd
      injection hd with hd
      rw [← hd]
      exact h
    · rcases drop_some_eq hne hd with ⟨moved, hrem, rfl⟩
      rcases jsSpliceRemoveOne_spec hrem with ⟨hperm, hlen⟩
      have hinsperm : (jsSpliceInsertOne (jsSpliceRemoveOne s.images d).1 ti moved).Perm
          s.images :=
        (jsSpliceInsertOne_perm _ ti moved).trans hperm.symm
      have hinslen : (jsSpliceInsertOne (jsSpliceRemoveOne s.images d).1 ti moved).length
          = s.images.length := hinsperm.length_eq
      have hlen8 : s.images.length ≤ maxImages := images_length_le h.1
      constructor
      · apply coreInv_renderSort
        constructor
        · show (List.map (fun img => img.slot) (renumberFrom _ 1)).Nodup
          rw [renumberFrom_map_slot]
          exact List.nodup_range' 1 _
        · intro n hn
          have : n ∈ List.range' 1
              (jsSpliceInsertOne (jsSpliceRemoveOne s.images d).1 ti moved).length := by
            rw [← renumberFrom_map_slot _ 1]
            exact hn
          rcases List.mem_range'_1.mp this with ⟨h1, h2⟩
          rw [hinslen] at h2
          exact ⟨h1, by omega⟩
        · intro k hk hknew
          rw [renumberFrom_map_imgKey] at hk
          exact h.1.newBlob k ((hinsperm.map imgKey).mem_iff.mp hk) hknew
        · rw [renumberFrom_map_imgKey]
          refine ((hinsperm.map imgKey).pairwise_iff ?_).mpr h.1.newDistinct
          intro x y hxy hy hx
          exact (hxy hx hy).symm
        · intro k hk hknew
          rw [renumberFrom_map_imgKey] at hk
          exact h.1.newNotRevoked k ((hinsperm.map imgKey).mem_iff.mp hk) hknew
        · exact h.1.urlsNodup
        · exact h.1.urlsBlob
        · exact h.1.revokedBlob
      · exact renderSort_sorted _

theorem coverOK_drop {s s' : GalleryState} {di : Option Int} {ti : Int}
    (h : CoverOK s) (hd : drop s di ti = some s') : CoverOK s' := by
  cases di with
  | none =>
    rw [drop_none_eq hd]
    exact h
  | some d =>
    by_cases hne : d = ti
    · subst hne
      rw [drop_eq_self d] at hd
      injection hd with hd
      rw [← hd]
      exact h
    · rcases drop_some_eq hne hd with ⟨moved, hrem, rfl⟩
      rcases jsSpliceRemoveOne_spec hrem with ⟨hperm, _⟩
      have hinsperm : (jsSpliceInsertOne (jsSpliceRemoveOne s.images d).1 ti moved).Perm
          s.images :=
        (jsSpliceInsertOne_perm _ ti moved).trans hperm.symm
      apply coverOK_renderSort
      cases h with
      | inl h0 =>
        left
        show renumberFrom _ 1 = []
        have : (jsSpliceInsertOne (jsSpliceRemoveOne s.images d).1 ti moved).length = 0 := by
          rw [hinsperm.length_eq, h0]
          rfl
        have hnil := List.length_eq_zero.mp this
        rw [hnil]
        rfl
      | inr h1 =>
        right
        show List.countP _ (renumberFrom _ 1) = 1
        rw [renumberFrom_countP_isCover]
        unfold coverCount at h1
        rw [hinsperm.countP_eq]
        exact h1

/-! ### Preservation: hydration -/

/-- Appending an `existing`-typed entry at the next slot keeps the
invariants. -/
theorem appendExisting_inv {s s' : GalleryState} {lo : Nat} {e : ImageData}
    (himg : s'.images = s.images ++ [e])
    (hslot : e.slot = lo)
    (htype : e.imgType = ImgType.existing)
    (hobj : s'.objectUrls = s.objectUrls)
    (hrev : s'.revokedUrls = s.revokedUrls)
    (hctr : s'.urlCounter = s.urlCounter)
    (h1 : 1 ≤ lo) (h2 : lo ≤ maxImages)
    (hc : CoreInv s) (hs : SortedOK s)
    (hlt : ∀ n ∈ slotsOf s, n < lo) :
    CoreInv s' ∧ SortedOK s' ∧ ∀ n ∈ slotsOf s', n < lo + 1 := by
  have hsl : slotsOf s' = slotsOf s ++ [lo] := by
    unfold slotsOf
    rw [himg]
    simp [hslot]
  have hkm : s'.images.map imgKey = s.images.map imgKey ++ [imgKey e] := by
    rw [himg]
    simp
  have hknew : (imgKey e).1 ≠ ImgType.new := by
    show e.imgType ≠ ImgType.new
    rw [htype]
    intro hcontra
    exact absurd hcontra (by simp)
  refine ⟨?_, ?_, ?_⟩
  · constructor
    · rw [hsl, List.nodup_append]
      refine ⟨hc.slotsNodup, List.nodup_singleton _, ?_⟩
      intro a ha hb
      rw [List.mem_singleton] at hb
      subst hb
      exact absurd (hlt a ha) (by omega)
    · intro n hn
      rw [hsl] at hn
      rcases List.mem_append.mp hn with hn1 | hn1
      · exact hc.slotsRange n hn1
      · rw [List.mem_singleton] at hn1
        subst hn1
        exact ⟨h1, h2⟩
    · intro k hkmem hkn
      rw [hkm] at hkmem
      rw [hctr]
      rcases List.mem_append.mp hkmem with hk1 | hk1
      · exact hc.newBlob k hk1 hkn
      · rw [List.mem_singleton] at hk1
        subst hk1
        exact absurd hkn hknew
    · rw [hkm, List.pairwise_append]
      refine ⟨hc.newDistinct, List.pairwise_singleton _ _, ?_⟩
      intro a ha b hb hanew hbnew
      rw [List.mem_singleton] at hb
      subst hb
      exact absurd hbnew hknew
    · intro k hkmem hkn
      rw [hkm] at hkmem
      rw [hrev]
      rcases List.mem_append.mp hkmem with hk1 | hk1
      · exact hc.newNotRevoked k hk1 hkn
      · rw [List.mem_singleton] at hk1
        subst hk1
        exact absurd hkn hknew
    · rw [hobj]
      exact hc.urlsNodup
    · intro u hu
      rw [hobj] at hu
      rw [hctr]
      exact hc.urlsBlob u hu
    · intro u hu
      rw [hrev] at hu
      rw [hctr]
      exact hc.revokedBlob u hu
  · unfold SortedOK
    rw [himg, List.pairwise_append]
    refine ⟨hs, List.pairwise_singleton _ _, ?_⟩
    intro a ha b hb
    rw [List.mem_singleton] at hb
    subst hb
    have := hlt a.slot (List.mem_map_of_mem _ ha)
    show a.slot ≤ b.slot
    rw [hslot]
    omega
  · intro n hn
    rw [hsl] at hn
    rcases List.mem_append.mp hn with hn1 | hn1
    · exact Nat.lt_succ_of_lt (hlt n hn1)
    · rw [List.mem_singleton] at hn1
      omega

/-- One hydration step keeps the invariants, with all slots still below
the next loop index. -/
theorem loadSlot_inv {s : GalleryState} {lo : Nat} (d : SlotData)
    (h1 : 1 ≤ lo) (h2 : lo ≤ maxImages) (hc : CoreInv s) (hs : SortedOK s)
    (hlt : ∀ n ∈ slotsOf s, n < lo) :
    CoreInv (loadSlot s lo d) ∧ SortedOK (loadSlot s lo d)
      ∧ ∀ n ∈ slotsOf (loadSlot s lo d), n < lo + 1 := by
  cases d with
  | noInput =>
    exact ⟨hc, hs, fun n hn => Nat.lt_succ_of_lt (hlt n hn)⟩
  | empty =>
    exact ⟨hc, hs, fun n hn => Nat.lt_succ_of_lt (hlt n hn)⟩
  | newFile file altValue coverValue =>
    have himg : (loadSlot s lo (SlotData.newFile file altValue coverValue)).images
        = s.images ++ [{ id := "temp-" ++ toString s.nextTempId
                         imgType := ImgType.new
                         source := Source.file file
                         url := Url.blob s.urlCounter
                         alt := if altValue = "" then "Imagen " ++ toString lo else altValue
                         isCover := match coverValue with
                           | some v => decide (v = "true")
                           | none => decide (lo = 1)
                         slot := lo
                         name := file.name }] := rfl
    have hsl : slotsOf (loadSlot s lo (SlotData.newFile file altValue coverValue))
        = slotsOf s ++ [lo] := by
      unfold slotsOf
      rw [himg]
      simp
    have hk : (loadSlot s lo (SlotData.newFile file altValue coverValue)).images.map imgKey
        = s.images.map imgKey ++ [(ImgType.new, Url.blob s.urlCounter)] := by
      rw [himg]
      simp [imgKey]
    have hobj : (loadSlot s lo (SlotData.newFile file altValue coverValue)).objectUrls
        = s.objectUrls ++ [Url.blob s.urlCounter] := rfl
    have hrev : (loadSlot s lo (SlotData.newFile file altValue coverValue)).revokedUrls
        = s.revokedUrls := rfl
    have hctr : (loadSlot s lo (SlotData.newFile file altValue coverValue)).urlCounter
        = s.urlCounter + 1 := rfl
    refine ⟨?_, ?_, ?_⟩
    · constructor
      · rw [hsl, List.nodup_append]
        refine ⟨hc.slotsNodup, List.nodup_singleton _, ?_⟩
        intro a ha hb
        rw [List.mem_singleton] at hb
        subst hb
        exact absurd (hlt a ha) (by omega)
      · intro n hn
        rw [hsl] at hn
        rcases List.mem_append.mp hn with hn1 | hn1
        · exact hc.slotsRange n hn1
        · rw [List.mem_singleton] at hn1
          subst hn1
          exact ⟨h1, h2⟩
      · intro k hkm hknew
        rw [hk] at hkm
        rw [hctr]
        rcases List.mem_append.mp hkm with hk1 | hk1
        · rcases hc.newBlob k hk1 hknew with ⟨n, hn1, hn2⟩
          exact ⟨n, hn1, by omega⟩
        · rw [List.mem_singleton] at hk1
          subst hk1
          exact ⟨s.urlCounter, rfl, by omega⟩
      · rw [hk, List.pairwise_append]
        refine ⟨hc.newDistinct, List.pairwise_singleton _ _, ?_⟩
        intro a ha b hb hanew hbnew
        rw [List.mem_singleton] at hb
        subst hb
        rcases hc.newBlob a ha hanew with ⟨n, hn1, hn2⟩
        rw [hn1]
        intro hEq
        rw [Url.blob.injEq] at hEq
        omega
      · intro k hkm hknew
        rw [hk] at hkm
        rw [hrev]
        rcases List.mem_append.mp hkm with hk1 | hk1
        · exact hc.newNotRevoked k hk1 hknew
        · rw [List.mem_singleton] at hk1
          subst hk1
          intro hmem
          rcases hc.revokedBlob _ hmem with ⟨n, hn1, hn2⟩
          rw [Url.blob.injEq] at hn1
          omega
      · rw [hobj, List.nodup_append]
        refine ⟨hc.urlsNodup, List.nodup_singleton _, ?_⟩
        intro a ha hb
        rw [List.mem_singleton] at hb
        subst hb
        rcases hc.urlsBlob _ ha with ⟨n, hn1, hn2⟩
        rw [Url.blob.injEq] at hn1
        omega
      · intro u hu
        rw [hobj] at hu
        rw [hctr]
        rcases List.mem_append.mp hu with hu1 | hu1
        · rcases hc.urlsBlob u hu1 with ⟨n, hn1, hn2⟩
          exact ⟨n, hn1, by omega⟩
        · rw [List.mem_singleton] at hu1
          subst hu1
          exact ⟨s.urlCounter, rfl, by omega⟩
      · intro u hu
        rw [hrev] at hu
        rw [hctr]
        rcases hc.revokedBlob u hu with ⟨n, hn1, hn2⟩
        exact ⟨n, hn1, by omega⟩
    · unfold SortedOK
      rw [himg, List.pairwise_append]
      refine ⟨hs, List.pairwise_singleton _ _, ?_⟩
      intro a ha b hb
      rw [List.mem_singleton] at hb
      subst hb
      have := hlt a.slot (List.mem_map_of_mem _ ha)
      show a.slot ≤ lo
      omega
    · intro n hn
      rw [hsl] at hn
      rcases List.mem_append.mp hn with hn1 | hn1
      · exact Nat.lt_succ_of_lt (hlt n hn1)
      · rw [List.mem_singleton] at hn1
        omega
  | existingImage urlAttr idAttr coverAttr altValue =>
    by_cases hu : (usableUrlAttr urlAttr : Prop)
    · have heq : loadSlot s lo (SlotData.existingImage urlAttr idAttr coverAttr altValue)
          = { s with
              currentCoverSlot := if (coverAttr = some "true" : Bool) then lo
                else s.currentCoverSlot
              images := s.images ++ [{
                id := match idAttr with
                  | some v => if v = "" then toString lo else v
                  | none => toString lo
                imgType := ImgType.existing
                source := Source.remoteSrc urlAttr
                url := Url.remote urlAttr
                alt := if altValue = "" then "Imagen " ++ toString lo else altValue
                isCover := coverAttr = some "true"
                slot := lo
                name := "imagen-" ++ toString lo }] } := by
        simp only [loadSlot]
        rw [if_pos hu]
      exact appendExisting_inv (by rw [heq]) rfl rfl (by rw [heq]) (by rw [heq])
        (by rw [heq]) h1 h2 hc hs hlt
    · have heq : loadSlot s lo (SlotData.existingImage urlAttr idAttr coverAttr altValue)
          = s := by
        simp only [loadSlot]
        rw [if_neg hu]
      rw [heq]
      exact ⟨hc, hs, fun n hn => Nat.lt_succ_of_lt (hlt n hn)⟩

theorem loadSlots_inv (form : HydrationForm) :
    ∀ (fuel lo : Nat) (s : GalleryState), 1 ≤ lo → lo + fuel ≤ maxImages + 1 →
      CoreInv s → SortedOK s → (∀ n ∈ slotsOf s, n < lo) →
      CoreInv (loadSlots form s lo fuel) ∧ SortedOK (loadSlots form s lo fuel)
        ∧ ∀ n ∈ slotsOf (loadSlots form s lo fuel), n < lo + fuel := by
  intro fuel
  induction fuel with
  | zero =>
    intro lo s h1 h2 hc hs hlt
    exact ⟨hc, hs, fun n hn => hlt n hn⟩
  | succ m ih =>
    intro lo s h1 h2 hc hs hlt
    rw [loadSlots]
    have hstep := loadSlot_inv (form lo) h1 (by omega) hc hs hlt
    have := ih (lo + 1) (loadSlot s lo (form lo)) (by omega) (by omega)
      hstep.1 hstep.2.1 hstep.2.2
    refine ⟨this.1, this.2.1, ?_⟩
    intro n hn
    have := this.2.2 n hn
    omega

theorem coreInv_initialState : CoreInv initialState := by
  constructor <;> simp [initialState, slotsOf]

theorem autoPromoteCover_slots (s : GalleryState) :
    slotsOf (autoPromoteCover s) = slotsOf s := by
  unfold autoPromoteCover
  by_cases hcond : s.images.length > 0 ∧ ¬ s.images.any (fun img => img.isCover)
  · rw [if_pos hcond]
    unfold slotsOf
    exact promoteFirst_map (fun img => img.slot) (fun img b => rfl) s.images
  · rw [if_neg hcond]

theorem autoPromoteCover_keys (s : GalleryState) :
    (autoPromoteCover s).images.map imgKey = s.images.map imgKey := by
  unfold autoPromoteCover
  by_cases hcond : s.images.length > 0 ∧ ¬ s.images.any (fun img => img.isCover)
  · rw [if_pos hcond]
    exact promoteFirst_map imgKey (fun img b => rfl) s.images
  · rw [if_neg hcond]

theorem coreInv_autoPromoteCover {s : GalleryState} (h : CoreInv s) :
    CoreInv (autoPromoteCover s) := by
  have hobj : (autoPromoteCover s).objectUrls = s.objectUrls := by
    unfold autoPromoteCover
    by_cases hcond : s.images.length > 0 ∧ ¬ s.images.any (fun img => img.isCover)
    · rw [if_pos hcond]
    · rw [if_neg hcond]
  have hrev : (autoPromoteCover s).revokedUrls = s.revokedUrls := by
    unfold autoPromoteCover
    by_cases hcond : s.images.length > 0 ∧ ¬ s.images.any (fun img => img.isCover)
    · rw [if_pos hcond]
    · rw [if_neg hcond]
  have hctr : (autoPromoteCover s).urlCounter = s.urlCounter := by
    unfold autoPromoteCover
    by_cases hcond : s.images.length > 0 ∧ ¬ s.images.any (fun img => img.isCover)
    · rw [if_pos hcond]
    · rw [if_neg hcond]
  exact coreInv_transfer h (List.Perm.of_eq (autoPromoteCover_slots s))
    (List.Perm.of_eq (autoPromoteCover_keys s)) hobj hrev hctr

theorem sortedOK_autoPromoteCover {s : GalleryState} (h : SortedOK s) :
    SortedOK (autoPromoteCover s) := by
  unfold autoPromoteCover
  by_cases hcond : s.images.length > 0 ∧ ¬ s.images.any (fun img => img.isCover)
  · rw [if_pos hcond]
    show List.Pairwise _ (promoteFirst s.images)
    cases himg : s.images with
    | nil => exact List.Pairwise.nil
    | cons first rest =>
      show List.Pairwise _ ({ first with isCover := true } :: rest)
      unfold SortedOK at h
      rw [himg] at h
      rw [List.pairwise_cons] at h ⊢
      exact ⟨fun b hb => h.1 b hb, h.2⟩
  · rw [if_neg hcond]
    exact h

theorem inv_hydrate (form : HydrationForm) : Inv (hydrate form) := by
  unfold hydrate
  have hbase := loadSlots_inv form maxImages 1 initialState (le_refl 1) (by omega)
    coreInv_initialState (by simp [initialState, SortedOK]) (by simp [initialState, slotsOf])
  have hrange : ∀ n ∈ slotsOf (loadSlots form initialState 1 maxImages),
      1 ≤ n ∧ n ≤ maxImages := by
    intro n hn
    have h1 := (hbase.1).slotsRange n hn
    exact h1
  unfold loadExistingImages
  constructor
  · exact coreInv_renderSort (coreInv_autoPromoteCover hbase.1)
  · exact renderSort_sorted _

/-- The cover count after hydration equals the number of loaded slots the
form flags as cover. -/
theorem loadSlot_coverCount (s : GalleryState) (i : Nat) (d : SlotData) :
    coverCount (loadSlot s i d)
      = coverCount s + (if slotAddsCover i d then 1 else 0) := by
  cases d with
  | noInput => simp [slotAddsCover, loadSlot]
  | empty => simp [slotAddsCover, loadSlot]
  | newFile file altValue coverValue =>
    unfold coverCount
    have himg : (loadSlot s i (SlotData.newFile file altValue coverValue)).images
        = s.images ++ [{ id := "temp-" ++ toString s.nextTempId
                         imgType := ImgType.new
                         source := Source.file file
                         url := Url.blob s.urlCounter
                         alt := if altValue = "" then "Imagen " ++ toString i else altValue
                         isCover := match coverValue with
                           | some v => decide (v = "true")
                           | none => decide (i = 1)
                         slot := i
                         name := file.name }] := rfl
    rw [himg, List.countP_append]
    congr 1
    cases coverValue with
    | none => simp [slotAddsCover, List.countP_cons]
    | some v => simp [slotAddsCover, List.countP_cons]
  | existingImage urlAttr idAttr coverAttr altValue =>
    unfold coverCount
    by_cases hu : (usableUrlAttr urlAttr : Prop)
    · have heq := (by simp only [loadSlot]; rw [if_pos hu] :
        loadSlot s i (SlotData.existingImage urlAttr idAttr coverAttr altValue)
          = { s with
              currentCoverSlot := if (coverAttr = some "true" : Bool) then i
                else s.currentCoverSlot
              images := s.images ++ [{
                id := match idAttr with
                  | some v => if v = "" then toString i else v
                  | none => toString i
                imgType := ImgType.existing
                source := Source.remoteSrc urlAttr
                url := Url.remote urlAttr
                alt := if altValue = "" then "Imagen " ++ toString i else altValue
                isCover := coverAttr = some "true"
                slot := i
                name := "imagen-" ++ toString i }] })
      rw [heq]
      show List.countP _ (s.images ++ [_]) = _
      rw [List.countP_append]
      congr 1
      simp [slotAddsCover, hu, List.countP_cons]
    · have heq := (by simp only [loadSlot]; rw [if_neg hu] :
        loadSlot s i (SlotData.existingImage urlAttr idAttr coverAttr altValue) = s)
      rw [heq]
      have hu' : usableUrlAttr urlAttr = false := Bool.eq_false_iff.mpr hu
      have : slotAddsCover i (SlotData.existingImage urlAttr idAttr coverAttr altValue)
          = false := by
        simp [slotAddsCover, hu']
      rw [this]
      simp

theorem loadSlots_coverCount (form : HydrationForm) :
    ∀ (fuel lo : Nat) (s : GalleryState),
      coverCount (loadSlots form s lo fuel)
        = coverCount s
          + (List.range' lo fuel).countP (fun i => slotAddsCover i (form i)) := by
  intro fuel
  induction fuel with
  | zero =>
    intro lo s
    simp [loadSlots]
  | succ m ih =>
    intro lo s
    rw [loadSlots, ih, loadSlot_coverCount]
    rw [List.range'_succ, List.countP_cons]
    by_cases hc : slotAddsCover lo (form lo)
    · simp [hc]
      omega
    · simp [hc]

theorem coverOK_autoPromoteCover {s : GalleryState} (hle : coverCount s ≤ 1) :
    CoverOK (autoPromoteCover s) := by
  unfold autoPromoteCover
  by_cases hcond : s.images.length > 0 ∧ ¬ s.images.any (fun img => img.isCover)
  · rw [if_pos hcond]
    cases himg : s.images with
    | nil =>
      left
      rfl
    | cons first rest =>
      right
      show List.countP (fun img => img.isCover) (promoteFirst (first :: rest)) = 1
      rw [countP_promoteFirst_cons]
      have hnone : ∀ img ∈ s.images, img.isCover = false := by
        intro img hmem
        rcases hcond with ⟨_, hnc⟩
        by_contra hcontra
        exact hnc (List.any_eq_true.mpr ⟨img, hmem, by simpa using hcontra⟩)
      have : List.countP (fun img => img.isCover) rest = 0 := by
        rw [List.countP_eq_zero]
        intro a ha
        simp [hnone a (by rw [himg]; exact List.mem_cons_of_mem _ ha)]
      omega
  · rw [if_neg hcond]
    push_neg at hcond
    by_cases hne : s.images.length > 0
    · right
      have hany := hcond hne
      rcases List.any_eq_true.mp hany with ⟨img, hmem, hcov⟩
      have hpos : 0 < coverCount s := by
        unfold coverCount
        exact List.countP_pos_iff.mpr ⟨img, hmem, hcov⟩
      unfold coverCount at *
      omega
    · left
      have : s.images.length = 0 := by omega
      exact List.length_eq_zero.mp this

theorem coverOK_hydrate {form : HydrationForm} (hg : GoodForm form) :
    CoverOK (hydrate form) := by
  unfold hydrate loadExistingImages
  apply coverOK_renderSort
  apply coverOK_autoPromoteCover
  rw [loadSlots_coverCount]
  have hinit : coverCount initialState = 0 := rfl
  rw [hinit]
  unfold GoodForm at hg
  omega

/-! ### Reachable states satisfy the invariants -/

theorem sortedOK_setAsCover {s : GalleryState} (h : SortedOK s) (i : Nat) :
    SortedOK (setAsCover s i) := by
  by_cases hlt : i < s.images.length
  · rw [setAsCover_eq_pos hlt]
    exact renderSort_sorted _
  · rw [setAsCover_eq_neg hlt]
    exact h

theorem sortedOK_deleteImage {s : GalleryState} (h : SortedOK s) (i : Nat) :
    SortedOK (deleteImage s i) := by
  unfold deleteImage
  by_cases hlt : i < s.images.length
  · rw [dif_pos hlt, deleteImageCore_eq]
    exact renderSort_sorted _
  · rw [dif_neg hlt]
    exact h

theorem inv_step {s s' : GalleryState} (h : Inv s) (hs : Step s s') : Inv s' := by
  cases hs with
  | addFiles files => exact handleFiles_inv h files
  | cover i => exact ⟨coreInv_setAsCover h.1 i, sortedOK_setAsCover h.2 i⟩
  | del i => exact ⟨coreInv_deleteImage h.1 i, sortedOK_deleteImage h.2 i⟩
  | reorder di ti t hd => exact inv_drop h hd

theorem coverOK_step {s s' : GalleryState} (h : CoverOK s) (hs : Step s s') :
    CoverOK s' := by
  cases hs with
  | addFiles files => exact handleFiles_coverOK h files
  | cover i => exact coverOK_setAsCover h i
  | del i => exact coverOK_deleteImage h i
  | reorder di ti t hd => exact coverOK_drop h hd

theorem reachableFrom_inv {s₀ s : GalleryState} (h₀ : Inv s₀)
    (h : ReachableFrom s₀ s) : Inv s := by
  induction h with
  | refl => exact h₀
  | tail _ hstep ih => exact inv_step ih hstep

theorem reachable_inv {s : GalleryState} (h : Reachable s) : Inv s := by
  rcases h with ⟨form, hr⟩
  exact reachableFrom_inv (inv_hydrate form) hr

theorem reachableFrom_coverOK {s₀ s : GalleryState} (h₀ : CoverOK s₀)
    (h : ReachableFrom s₀ s) : CoverOK s := by
  induction h with
  | refl => exact h₀
  | tail _ hstep ih => exact coverOK_step ih hstep

theorem goodReachable_coverOK {s : GalleryState} (h : GoodReachable s) : CoverOK s := by
  rcases h with ⟨form, hg, hr⟩
  exact reachableFrom_coverOK (coverOK_hydrate hg) hr

theorem goodReachable_reachable {s : GalleryState} (h : GoodReachable s) :
    Reachable s := by
  rcases h with ⟨form, _, hr⟩
  exact ⟨form, hr⟩

/-! ### Notification bookkeeping of the upload path -/

theorem processFiles_length (files : List JsFile) :
    ∀ (s : GalleryState) (acc : List Notification × Nat × Nat),
      (processFiles s files acc).1.images.length ≤ s.images.length + files.length := by
  induction files with
  | nil =>
    intro s acc
    simp [processFiles]
  | cons f rest ih =>
    intro s acc
    obtain ⟨n, c, w⟩ := acc
    rw [processFiles]
    cases hv : validateImageFile f with
    | error msg =>
      have := ih s (n ++ [⟨msg, NotifType.error⟩], c, w)
      simp only [List.length_cons]
      omega
    | ok u =>
      have := ih (addNewImage s f) (n, c + 1, if f.size > bgMaxSize then w + 1 else w)
      rw [addNewImage_length] at this
      simp only [List.length_cons]
      omega

theorem renderSort_length (s : GalleryState) :
    (renderSort s).images.length = s.images.length :=
  (renderSort_images_perm s).length_eq

theorem handleFilesGo_fst (s : GalleryState) (files : List JsFile) :
    (handleFilesGo s files).1 =
      if (processFiles s (files.take (availableSlotsOf s).toNat) ([], 0, 0)).2.2.1 > 0
      then renderSort (processFiles s (files.take (availableSlotsOf s).toNat) ([], 0, 0)).1
      else (processFiles s (files.take (availableSlotsOf s).toNat) ([], 0, 0)).1 := by
  simp only [handleFilesGo]
  by_cases hc :
      (processFiles s (files.take (availableSlotsOf s).toNat) ([], 0, 0)).2.2.1 > 0
  · rw [if_pos hc, if_pos hc]
  · rw [if_neg hc, if_neg hc]

theorem handleFilesGo_accepted (s : GalleryState) (files : List JsFile) :
    (handleFilesGo s files).2.2
      = (processFiles s (files.take (availableSlotsOf s).toNat) ([], 0, 0)).2.2.1 := by
  simp only [handleFilesGo]
  by_cases hc :
      (processFiles s (files.take (availableSlotsOf s).toNat) ([], 0, 0)).2.2.1 > 0
  · rw [if_pos hc]
  · rw [if_neg hc]

theorem handleFilesGo_notifs (s : GalleryState) (files : List JsFile) :
    (handleFilesGo s files).2.1 =
      (if (files.length : Int) > availableSlotsOf s
       then [overflowNotification (availableSlotsOf s).toNat] else [])
      ++ (processFiles s (files.take (availableSlotsOf s).toNat) ([], 0, 0)).2.1
      ++ (if (processFiles s (files.take (availableSlotsOf s).toNat) ([], 0, 0)).2.2.1 > 0
          then [successNotification
              (processFiles s (files.take (availableSlotsOf s).toNat) ([], 0, 0)).2.2.1
              (processFiles s (files.take (availableSlotsOf s).toNat) ([], 0, 0)).2.2.2]
          else []) := by
  simp only [handleFilesGo]
  by_cases hc :
      (processFiles s (files.take (availableSlotsOf s).toNat) ([], 0, 0)).2.2.1 > 0
  · rw [if_pos hc, if_pos hc]
  · rw [if_neg hc, if_neg hc]
    simp

theorem processFiles_notifs_error (files : List JsFile) :
    ∀ (s : GalleryState) (n : List Notification) (c w : Nat),
      (∀ x ∈ n, x.ntype = NotifType.error) →
      ∀ x ∈ (processFiles s files (n, c, w)).2.1, x.ntype = NotifType.error := by
  induction files with
  | nil =>
    intro s n c w hn x hx
    exact hn x hx
  | cons f rest ih =>
    intro s n c w hn x hx
    rw [processFiles] at hx
    cases hv : validateImageFile f with
    | error msg =>
      rw [hv] at hx
      refine ih s _ c w ?_ x hx
      intro y hy
      rcases List.mem_append.mp hy with hy1 | hy1
      · exact hn y hy1
      · rw [List.mem_singleton] at hy1
        subst hy1
        rfl
    | ok u =>
      rw [hv] at hx
      exact ih (addNewImage s f) n (c + 1) _ hn x hx

theorem processFiles_notifs_mono (files : List JsFile) :
    ∀ (s : GalleryState) (n : List Notification) (c w : Nat),
      ∀ x ∈ n, x ∈ (processFiles s files (n, c, w)).2.1 := by
  induction files with
  | nil =>
    intro s n c w x hx
    exact hx
  | cons f rest ih =>
    intro s n c w x hx
    rw [processFiles]
    cases hv : validateImageFile f with
    | error msg =>
      exact ih s _ c w x (List.mem_append.mpr (Or.inl hx))
    | ok u =>
      exact ih (addNewImage s f) n (c + 1) _ x hx

theorem processFiles_error_mem (files : List JsFile) :
    ∀ (s : GalleryState) (n : List Notification) (c w : Nat) (g : JsFile) (msg : String),
      g ∈ files → validateImageFile g = Except.error msg →
      (⟨msg, NotifType.error⟩ : Notification) ∈ (processFiles s files (n, c, w)).2.1 := by
  induction files with
  | nil =>
    intro s n c w g msg hg _
    exact absurd hg (by simp)
  | cons f rest ih =>
    intro s n c w g msg hg hbad
    rw [processFiles]
    rcases List.mem_cons.mp hg with hg1 | hg1
    · subst hg1
      rw [hbad]
      exact processFiles_notifs_mono rest s _ c w _
        (List.mem_append.mpr (Or.inr (List.mem_singleton_self _)))
    · cases hv : validateImageFile f with
      | error m => exact ih s _ c w g msg hg1 hbad
      | ok u => exact ih (addNewImage s f) n (c + 1) _ g msg hg1 hbad

theorem isOk_error {msg : String} :
    (Except.error msg : Except String Unit).isOk = false := rfl

theorem isOk_ok {u : Unit} :
    (Except.ok u : Except String Unit).isOk = true := rfl

/-- The state produced by the validation loop does not depend on the
notification/counter accumulators. -/
theorem processFiles_fst_acc (files : List JsFile) :
    ∀ (s : GalleryState) (acc acc' : List Notification × Nat × Nat),
      (processFiles s files acc).1 = (processFiles s files acc').1 := by
  induction files with
  | nil =>
    intro s acc acc'
    rfl
  | cons f rest ih =>
    intro s acc acc'
    obtain ⟨n, c, w⟩ := acc
    obtain ⟨n', c', w'⟩ := acc'
    rw [processFiles, processFiles]
    cases hv : validateImageFile f with
    | error msg => exact ih s _ _
    | ok u => exact ih (addNewImage s f) _ _

theorem processFiles_filter_ok (files : List JsFile) :
    ∀ (s : GalleryState) (acc : List Notification × Nat × Nat),
      (processFiles s files acc).1
        = (processFiles s (files.filter (fun g => (validateImageFile g).isOk)) acc).1 := by
  induction files with
  | nil =>
    intro s acc
    rfl
  | cons f rest ih =>
    intro s acc
    obtain ⟨n, c, w⟩ := acc
    cases hv : validateImageFile f with
    | error msg =>
      have hfilter : (f :: rest).filter (fun g => (validateImageFile g).isOk)
          = rest.filter (fun g => (validateImageFile g).isOk) := by
        rw [List.filter_cons]
        rw [if_neg (by rw [hv, isOk_error]; exact Bool.false_ne_true)]
      rw [hfilter, processFiles, hv]
      exact (ih s (n ++ [⟨msg, NotifType.error⟩], c, w)).trans
        (processFiles_fst_acc _ s _ (n, c, w))
    | ok u =>
      have hfilter : (f :: rest).filter (fun g => (validateImageFile g).isOk)
          = f :: rest.filter (fun g => (validateImageFile g).isOk) := by
        rw [List.filter_cons]
        rw [if_pos (by rw [hv, isOk_ok])]
      rw [hfilter, processFiles, processFiles, hv]
      exact ih (addNewImage s f) (n, c + 1, if f.size > bgMaxSize then w + 1 else w)

/-! ### Claim theorems -/

/-- C2 (counterexample): hydrating a form whose first two slots both
carry `data-is-cover="true"` yields a reachable non-empty store with two
cover entries, refuting the claim that every non-empty state reachable by
hydrate/addImages/setCover/deleteEntry/reorder has exactly one cover. -/
theorem c2_counterexample :
    (hydrate twoCoverForm).images ≠ []
      ∧ coverCount (hydrate twoCoverForm) = 2
      ∧ ¬ coverCount (hydrate twoCoverForm) = 1 :=
  ⟨by decide, by decide, by decide⟩

/-- C2 (amended): provided the hydrated form flags at most one loaded
slot as cover, every non-empty store state reachable by any sequence of
hydrate, addImages, setCover, deleteEntry and reorder operations has
exactly one entry with `isCover = true`. -/
theorem c2_amended {s : GalleryState} (h : GoodReachable s)
    (hne : s.images ≠ []) : coverCount s = 1 := by
  cases goodReachable_coverOK h with
  | inl h0 => exact absurd h0 hne
  | inr h1 => exact h1

/-- Witness for C2 (amended) at the two-entry gallery built from an empty
hydration. -/
theorem c2_amended_witness : coverCount galleryTwo = 1 :=
  c2_amended
    ⟨emptyForm, by decide,
      ReachableFrom.tail ReachableFrom.refl
        (Step.addFiles galleryEmpty [pngFile, jpgFile])⟩
    (by decide)

/-- C9 (counterexample): `reorder` with the out-of-bounds dragged index
`-1` on a two-entry store mutates the store (JS `splice` wraps negative
indices), refuting the claim that out-of-bounds indices leave the store
completely unchanged. -/
theorem c9_counterexample :
    ¬ drop galleryTwo (some (-1)) 0 = some galleryTwo
      ∧ ¬ drop galleryTwo (some (-1)) 0 = none :=
  ⟨by decide, by decide⟩

/-- C9 (amended): `reorder` is a no-op when no internal drag is in
progress or when the two indices are equal; the code performs no bounds
check, so out-of-range indices follow raw JS `splice` semantics (a
negative dragged index wraps from the end and mutates the store; a
dragged index at or past the length crashes the handler). -/
theorem c9_amended (s : GalleryState) (ti : Int) :
    drop s none ti = some s ∧ drop s (some ti) ti = some s :=
  ⟨rfl, drop_eq_self ti⟩

/-- C10: whenever some slot in `1..maxImages` is unoccupied, the slot
allocated for the next added image (`getNextSlot`) is the minimum of the
unoccupied slots: it is in range, unused, and every smaller slot number
is in use; `addNewImage` appends exactly one entry carrying that slot. -/
theorem c10_next_slot (s : GalleryState) (f : JsFile) (j : Nat)
    (hj1 : 1 ≤ j) (hj2 : j ≤ maxImages) (hfree : j ∉ slotsOf s) :
    (1 ≤ getNextSlot s ∧ getNextSlot s ≤ maxImages
      ∧ getNextSlot s ∉ slotsOf s
      ∧ ∀ k, 1 ≤ k → k < getNextSlot s → k ∈ slotsOf s)
    ∧ (addNewImage s f).images = s.images ++ [appendedEntry s f]
    ∧ (appendedEntry s f).slot = getNextSlot s :=
  ⟨getNextSlot_least hj1 hj2 hfree, addNewImage_images s f, rfl⟩

/-- Witness for C10 at the two-entry gallery (slots 1 and 2 occupied,
slot 3 free). -/
theorem c10_next_slot_witness : getNextSlot galleryTwo ∉ slotsOf galleryTwo :=
  (c10_next_slot galleryTwo pngFile 3 (by decide) (by decide) (by decide)).1.2.2.1

/-- C1 (counterexample): from the hydrated empty gallery, add three valid
files (slots 1,2,3) and delete the entry at index 0.  The surviving two
entries keep slots 2 and 3: `deleteImage` never renumbers, so after this
operation the slots are not the contiguous permutation `1..2`. -/
theorem c1_counterexample :
    (deleteImage galleryThree 0).images.length = 2
      ∧ slotsOf (deleteImage galleryThree 0) = [2, 3]
      ∧ ¬ slotsOf (deleteImage galleryThree 0) = List.range' 1 2 :=
  ⟨by decide, by decide, by decide⟩

/-- C1 (amended): in every state reachable from a hydrated state, slot
values are pairwise distinct and within `1..maxEntries` (no duplicates,
but deletion can leave gaps); after every reorder that acts, the slots
are exactly the contiguous `1..entries.length`. -/
theorem c1_amended {s : GalleryState} (h : Reachable s) :
    ((slotsOf s).Nodup ∧ ∀ n ∈ slotsOf s, 1 ≤ n ∧ n ≤ maxImages)
      ∧ ∀ (d ti : Int) (s' : GalleryState), d ≠ ti →
          drop s (some d) ti = some s' →
          slotsOf s' = List.range' 1 s'.images.length := by
  have hinv := reachable_inv h
  refine ⟨⟨hinv.1.slotsNodup, hinv.1.slotsRange⟩, ?_⟩
  intro d ti s' hne hd
  rcases drop_some_eq hne hd with ⟨moved, hrem, rfl⟩
  set inserted := jsSpliceInsertOne (jsSpliceRemoveOne s.images d).1 ti moved with hins
  set mid := { s with
    images := renumberFrom inserted 1
    currentCoverSlot :=
      if moved.isCover then jsClampIndex (jsSpliceRemoveOne s.images d).1.length ti + 1
      else s.currentCoverSlot } with hmiddef
  have hmid : slotsOf mid = List.range' 1 inserted.length := by
    unfold slotsOf
    exact renumberFrom_map_slot inserted 1
  have hperm : (slotsOf (renderSort mid)).Perm (List.range' 1 inserted.length) := by
    rw [← hmid]
    exact (renderSort_images_perm mid).map _
  have hsorted1 : List.Sorted (· ≤ ·) (slotsOf (renderSort mid)) := by
    have := renderSort_sorted mid
    unfold SortedOK at this
    unfold slotsOf
    exact List.pairwise_map.mpr this
  have hsorted2 : List.Sorted (· ≤ ·) (List.range' 1 inserted.length) :=
    (List.pairwise_lt_range' 1 inserted.length).imp le_of_lt
  have heq := List.eq_of_perm_of_sorted hperm hsorted1 hsorted2
  rw [heq]
  congr 1
  rw [renderSort_length]
  exact (renumberFrom_length inserted 1).symm

/-- Witness for C1 (amended) at the two-entry gallery built from an empty
hydration. -/
theorem c1_amended_witness : (slotsOf galleryTwo).Nodup :=
  (c1_amended
    ⟨emptyForm, ReachableFrom.tail ReachableFrom.refl
      (Step.addFiles galleryEmpty [pngFile, jpgFile])⟩).1.1

theorem renumberFrom_map_entryCore (l : List ImageData) (k : Nat) :
    (renumberFrom l k).map entryCore = l.map entryCore := by
  induction l generalizing k with
  | nil => rfl
  | cons x xs ih => simp [renumberFrom, entryCore, ih]

theorem cover_mem_iff (l : List ImageData) (i : String) :
    ((i, true) ∈ l.map (fun img => (img.id, img.isCover)))
      ↔ ∃ img ∈ l, img.id = i ∧ img.isCover := by
  rw [List.mem_map]
  constructor
  · rintro ⟨img, hmem, hEq⟩
    rw [Prod.mk.injEq] at hEq
    exact ⟨img, hmem, hEq.1, hEq.2⟩
  · rintro ⟨img, hmem, h1, h2⟩
    exact ⟨img, hmem, by rw [Prod.mk.injEq]; exact ⟨h1, h2⟩⟩

/-- C4: in every reachable state, deleting an Existing entry with id `E`
appends `E` to the deletion queue, while deleting a New entry leaves the
queue unchanged, logs exactly one revocation of that entry's object URL,
and drops it from the tracked handle set; in both cases exactly the
spliced entry leaves `entries`. -/
theorem c4_deletionQueue {s : GalleryState} (h : Reachable s) (index : Nat)
    (hlt : index < s.images.length) :
    ((s.images.get ⟨index, hlt⟩).imgType = ImgType.existing →
        (deleteImage s index).imagesToDelete
          = s.imagesToDelete ++ [(s.images.get ⟨index, hlt⟩).id])
    ∧ ((s.images.get ⟨index, hlt⟩).imgType = ImgType.new →
        (deleteImage s index).imagesToDelete = s.imagesToDelete
        ∧ (deleteImage s index).revokedUrls
            = s.revokedUrls ++ [(s.images.get ⟨index, hlt⟩).url]
        ∧ (s.images.get ⟨index, hlt⟩).url ∉ (deleteImage s index).objectUrls
        ∧ ((deleteImage s index).revokedUrls).count (s.images.get ⟨index, hlt⟩).url = 1)
    ∧ ((deleteImage s index).images.map (fun img => img.id)).Perm
        ((s.images.eraseIdx index).map (fun img => img.id)) := by
  have hinv := reachable_inv h
  have hkmem : imgKey (s.images.get ⟨index, hlt⟩) ∈ s.images.map imgKey :=
    List.mem_map_of_mem imgKey (s.images.get_mem index _)
  have hdel : deleteImage s index = renderSort (deleteMid s index hlt) := by
    unfold deleteImage
    rw [dif_pos hlt, deleteImageCore_eq]
  rw [hdel]
  refine ⟨?_, ?_, ?_⟩
  · intro htype
    show (if (s.images.get ⟨index, hlt⟩).imgType = ImgType.existing then
        s.imagesToDelete ++ [(s.images.get ⟨index, hlt⟩).id]
      else s.imagesToDelete) = _
    rw [if_pos htype]
  · intro htype
    have hblob : (s.images.get ⟨index, hlt⟩).url.isBlob = true := by
      rcases hinv.1.newBlob _ hkmem htype with ⟨n, hn1, _⟩
      have hn1' : (s.images.get ⟨index, hlt⟩).url = Url.blob n := hn1
      rw [hn1']
      rfl
    have hnb : (s.images.get ⟨index, hlt⟩).imgType = ImgType.new
        ∧ ((s.images.get ⟨index, hlt⟩).url.isBlob : Prop) := ⟨htype, hblob⟩
    have hnotrev : (s.images.get ⟨index, hlt⟩).url ∉ s.revokedUrls :=
      hinv.1.newNotRevoked _ hkmem htype
    refine ⟨?_, ?_, ?_, ?_⟩
    · show (if (s.images.get ⟨index, hlt⟩).imgType = ImgType.existing then
          s.imagesToDelete ++ [(s.images.get ⟨index, hlt⟩).id]
        else s.imagesToDelete) = _
      rw [if_neg (by rw [htype]; intro hcontra; exact absurd hcontra (by decide))]
    · show (if (s.images.get ⟨index, hlt⟩).imgType = ImgType.new
            ∧ ((s.images.get ⟨index, hlt⟩).url.isBlob : Prop) then
          s.revokedUrls ++ [(s.images.get ⟨index, hlt⟩).url]
        else s.revokedUrls) = _
      rw [if_pos hnb]
    · show (s.images.get ⟨index, hlt⟩).url ∉
        (if (s.images.get ⟨index, hlt⟩).imgType = ImgType.new
            ∧ ((s.images.get ⟨index, hlt⟩).url.isBlob : Prop) then
          s.objectUrls.erase (s.images.get ⟨index, hlt⟩).url
        else s.objectUrls)
      rw [if_pos hnb]
      intro hmem
      rcases (hinv.1.urlsNodup.mem_erase_iff).mp hmem with ⟨hne', _⟩
      exact hne' rfl
    · show List.count (s.images.get ⟨index, hlt⟩).url
        (if (s.images.get ⟨index, hlt⟩).imgType = ImgType.new
            ∧ ((s.images.get ⟨index, hlt⟩).url.isBlob : Prop) then
          s.revokedUrls ++ [(s.images.get ⟨index, hlt⟩).url]
        else s.revokedUrls) = 1
      rw [if_pos hnb, List.count_append]
      rw [List.count_eq_zero.mpr hnotrev]
      simp
  · have hidmap : (deleteMid s index hlt).images.map (fun img => img.id)
        = (s.images.eraseIdx index).map (fun img => img.id) :=
      ite_promote_map (fun img => img.id) (fun img b => rfl) _ _
    exact ((renderSort_images_perm _).map _).trans (List.Perm.of_eq hidmap)

/-- Witness for C4 at the two-entry gallery, deleting the New entry at
index 1. -/
theorem c4_deletionQueue_witness :
    (deleteImage galleryTwo 1).imagesToDelete = galleryTwo.imagesToDelete :=
  ((c4_deletionQueue
    ⟨emptyForm, ReachableFrom.tail ReachableFrom.refl
      (Step.addFiles galleryEmpty [pngFile, jpgFile])⟩ 1 (by decide)).2.1
    (by decide)).1

/-- C6: a reorder between distinct in-bounds indices never changes which
logical entry is the cover: the multiset of slot-blanked entries is
preserved, and in particular an id is a cover id after the reorder
exactly when it was one before. -/
theorem c6_reorder_cover (s : GalleryState) (di ti : Int) (s' : GalleryState)
    (hdi0 : 0 ≤ di) (hdilt : di < (s.images.length : Int))
    (hti0 : 0 ≤ ti) (htilt : ti < (s.images.length : Int))
    (hne : di ≠ ti) (hd : drop s (some di) ti = some s') :
    ((s'.images.map entryCore).Perm (s.images.map entryCore))
    ∧ ∀ i : String, (∃ img ∈ s'.images, img.id = i ∧ img.isCover)
        ↔ (∃ img ∈ s.images, img.id = i ∧ img.isCover) := by
  rcases drop_some_eq hne hd with ⟨moved, hrem, rfl⟩
  rcases jsSpliceRemoveOne_spec hrem with ⟨hperm, _⟩
  have hinsperm : (jsSpliceInsertOne (jsSpliceRemoveOne s.images di).1 ti moved).Perm
      s.images :=
    (jsSpliceInsertOne_perm _ ti moved).trans hperm.symm
  have hcoreperm : ((renderSort { s with
      images := renumberFrom (jsSpliceInsertOne (jsSpliceRemoveOne s.images di).1 ti moved) 1
      currentCoverSlot :=
        if moved.isCover then jsClampIndex (jsSpliceRemoveOne s.images di).1.length ti + 1
        else s.currentCoverSlot }).images.map entryCore).Perm
      (s.images.map entryCore) := by
    refine ((renderSort_images_perm _).map entryCore).trans ?_
    rw [renumberFrom_map_entryCore]
    exact hinsperm.map entryCore
  refine ⟨hcoreperm, ?_⟩
  intro i
  have hidcover : ∀ l : List ImageData,
      (l.map entryCore).map (fun img => (img.id, img.isCover))
        = l.map (fun img => (img.id, img.isCover)) := by
    intro l
    rw [List.map_map]
    exact List.map_congr_left (fun img _ => rfl)
  have hpairperm := hcoreperm.map (fun img => (img.id, img.isCover))
  rw [hidcover, hidcover] at hpairperm
  rw [← cover_mem_iff, ← cover_mem_iff]
  exact hpairperm.mem_iff

/-- Witness for C6 at the two-entry gallery, swapping indices 0 and 1. -/
theorem c6_reorder_cover_witness :
    (galleryTwoSwapped.images.map entryCore).Perm (galleryTwo.images.map entryCore) :=
  (c6_reorder_cover galleryTwo 0 1 galleryTwoSwapped (by decide) (by decide) (by decide)
    (by decide) (by decide) (by decide)).1

/-- C7 (counterexample): deleting the cover out of 3 entries at slots
1,2,3 leaves 2 entries, and the entry originally at slot 2 does become
the new cover — but the survivors keep slots 2 and 3 instead of being
renumbered to 1 and 2 as the claim requires. -/
theorem c7_counterexample :
    (galleryThree.images.get ⟨0, by decide⟩).isCover
      ∧ (deleteImage galleryThree 0).images.length = 2
      ∧ slotsOf (deleteImage galleryThree 0) = [2, 3]
      ∧ ¬ slotsOf (deleteImage galleryThree 0) = [1, 2] :=
  ⟨by decide, by decide, by decide, by decide⟩

/-- C7 (amended): in every reachable single-cover state, deleting the
cover entry while other entries remain promotes the surviving entry with
the lowest slot to cover (exactly one cover remains, carried by the entry
that headed the post-splice list, whose slot is minimal among survivors);
the survivors keep their slot numbers — they are not renumbered. -/
theorem c7_amended {s : GalleryState} (h : GoodReachable s) (index : Nat)
    (hlt : index < s.images.length)
    (hcov : (s.images.get ⟨index, hlt⟩).isCover)
    (hmore : 1 < s.images.length) :
    coverCount (deleteImage s index) = 1
    ∧ (∀ first, (s.images.eraseIdx index).head? = some first →
        ∃ c ∈ (deleteImage s index).images, c.isCover ∧ c.id = first.id
          ∧ c.slot = first.slot
          ∧ ∀ other ∈ (deleteImage s index).images, c.slot ≤ other.slot)
    ∧ (slotsOf (deleteImage s index)).Perm
        ((s.images.eraseIdx index).map (fun img => img.slot)) := by
  have hinv := reachable_inv (goodReachable_reachable h)
  have hcovOK := goodReachable_coverOK h
  have hdel : deleteImage s index = renderSort (deleteMid s index hlt) := by
    unfold deleteImage
    rw [dif_pos hlt, deleteImageCore_eq]
  have hremlen : (s.images.eraseIdx index).length + 1 = s.images.length :=
    List.length_eraseIdx_add_one hlt
  have hpromote : ((s.images.get ⟨index, hlt⟩).isCover
      ∧ (s.images.eraseIdx index).length > 0) := ⟨hcov, by omega⟩
  have hmidimg : (deleteMid s index hlt).images
      = promoteFirst (s.images.eraseIdx index) := by
    show (if (s.images.get ⟨index, hlt⟩).isCover
        ∧ (s.images.eraseIdx index).length > 0 then
        promoteFirst (s.images.eraseIdx index) else s.images.eraseIdx index) = _
    rw [if_pos hpromote]
  refine ⟨?_, ?_, ?_⟩
  · -- exactly one cover remains
    have hOK := coverOK_deleteImage hcovOK index
    cases hOK with
    | inl h0 =>
      exfalso
      have hlen : (deleteImage s index).images.length = 0 := by
        rw [h0]
        rfl
      rw [hdel, renderSort_length, hmidimg] at hlen
      cases hR : s.images.eraseIdx index with
      | nil => rw [hR] at hremlen; simp at hremlen; omega
      | cons a rest => rw [hR] at hlen; simp [promoteFirst] at hlen
    | inr h1 => exact h1
  · intro first hfirst
    cases hR : s.images.eraseIdx index with
    | nil =>
      rw [hR] at hfirst
      exact absurd hfirst (by simp)
    | cons a rest =>
      rw [hR] at hfirst
      rw [List.head?_cons, Option.some.injEq] at hfirst
      subst hfirst
      refine ⟨{ a with isCover := true }, ?_, rfl, rfl, rfl, ?_⟩
      · rw [hdel]
        have : { a with isCover := true } ∈ (deleteMid s index hlt).images := by
          rw [hmidimg, hR]
          exact List.mem_cons_self _ _
        exact (renderSort_images_perm _).mem_iff.mpr this
      · intro other hother
        rw [hdel] at hother
        have hother' : other ∈ (deleteMid s index hlt).images :=
          (renderSort_images_perm _).mem_iff.mp hother
        rw [hmidimg, hR] at hother'
        show a.slot ≤ other.slot
        -- survivors are sorted by slot, and `first` heads them
        have hsorted : List.Pairwise (fun a b => a.slot ≤ b.slot)
            (s.images.eraseIdx index) :=
          hinv.2.sublist (List.eraseIdx_sublist s.images index)
        rw [hR, List.pairwise_cons] at hsorted
        rcases List.mem_cons.mp hother' with hEq | hmem
        · rw [hEq]
        · exact hsorted.1 other hmem
  · rw [hdel]
    have hslotmap : (deleteMid s index hlt).images.map (fun img => img.slot)
        = (s.images.eraseIdx index).map (fun img => img.slot) :=
      ite_promote_map (fun img => img.slot) (fun img b => rfl) _ _
    exact ((renderSort_images_perm _).map _).trans (List.Perm.of_eq hslotmap)

/-- Witness for C7 (amended) at the three-entry gallery whose cover sits
at index 0. -/
theorem c7_amended_witness : coverCount (deleteImage galleryThree 0) = 1 :=
  (c7_amended
    ⟨emptyForm, by decide,
      ReachableFrom.tail ReachableFrom.refl
        (Step.addFiles galleryEmpty [pngFile, jpgFile, gifFile])⟩
    0 (by decide) (by decide) (by decide)).1

/-- C3: `addImages` never grows `entries` beyond `maxEntries = 8`; with a
full store it accepts zero files, leaves the state untouched and emits
exactly the one capacity error; with more files than remaining capacity
it behaves exactly like the call truncated to the remaining capacity
(the excess files are never even validated) except for one extra capacity
warning, which is the only warning-typed notification of the batch. -/
theorem c3_capacity (s : GalleryState) (files : List JsFile)
    (hlen : s.images.length ≤ maxImages) :
    (handleFiles s files).1.images.length ≤ maxImages
    ∧ (s.images.length = maxImages →
        handleFiles s files = (s, [maxedOutNotification], 0))
    ∧ (s.images.length < maxImages →
        files.length > maxImages - s.images.length →
        (handleFiles s files).1
            = (handleFiles s (files.take (maxImages - s.images.length))).1
        ∧ (handleFiles s files).2.2
            = (handleFiles s (files.take (maxImages - s.images.length))).2.2
        ∧ (handleFiles s files).2.1
            = overflowNotification (maxImages - s.images.length)
              :: (handleFiles s (files.take (maxImages - s.images.length))).2.1
        ∧ (handleFiles s files).2.1.countP
            (fun n => n.ntype = NotifType.warning) = 1) := by
  refine ⟨?_, ?_, ?_⟩
  · -- capacity bound
    unfold handleFiles
    by_cases hfull : availableSlotsOf s ≤ 0
    · rw [if_pos hfull]
      exact hlen
    · rw [if_neg hfull]
      rw [handleFilesGo_fst]
      have hA : (availableSlotsOf s).toNat ≤ maxImages - s.images.length := by
        unfold availableSlotsOf
        omega
      have hbound := processFiles_length (files.take (availableSlotsOf s).toNat) s ([], 0, 0)
      have htk : (files.take (availableSlotsOf s).toNat).length
          ≤ (availableSlotsOf s).toNat := by
        simp
      by_cases hsucc :
          (processFiles s (files.take (availableSlotsOf s).toNat) ([], 0, 0)).2.2.1 > 0
      · rw [if_pos hsucc, renderSort_length]
        omega
      · rw [if_neg hsucc]
        omega
  · -- full store: single capacity error, nothing accepted
    intro hfull8
    unfold handleFiles
    rw [if_pos (by unfold availableSlotsOf; omega)]
  · -- overflow: identical to the truncated call plus one warning
    intro hroom hover
    have hnotfull : ¬ availableSlotsOf s ≤ 0 := by
      unfold availableSlotsOf
      omega
    have hA : (availableSlotsOf s).toNat = maxImages - s.images.length := by
      unfold availableSlotsOf
      omega
    have htaketake : (files.take (maxImages - s.images.length)).take
        (availableSlotsOf s).toNat = files.take (maxImages - s.images.length) := by
      rw [hA, List.take_take, min_self]
    have hfull1 : handleFiles s files = handleFilesGo s files := by
      unfold handleFiles
      rw [if_neg hnotfull]
    have hfull2 : handleFiles s (files.take (maxImages - s.images.length))
        = handleFilesGo s (files.take (maxImages - s.images.length)) := by
      unfold handleFiles
      rw [if_neg hnotfull]
    have htrunclen : (files.take (maxImages - s.images.length)).length
        = maxImages - s.images.length := by
      rw [List.length_take]
      omega
    have hcap1 : ((files.length : Int) > availableSlotsOf s) := by
      unfold availableSlotsOf
      omega
    have hcap2 : ¬ (((files.take (maxImages - s.images.length)).length : Int)
        > availableSlotsOf s) := by
      rw [htrunclen]
      unfold availableSlotsOf
      omega
    have hP : processFiles s (files.take (availableSlotsOf s).toNat) ([], 0, 0)
        = processFiles s ((files.take (maxImages - s.images.length)).take
            (availableSlotsOf s).toNat) ([], 0, 0) := by
      rw [htaketake, hA]
    refine ⟨?_, ?_, ?_, ?_⟩
    · rw [hfull1, hfull2, handleFilesGo_fst, handleFilesGo_fst, ← hP]
    · rw [hfull1, hfull2, handleFilesGo_accepted, handleFilesGo_accepted, ← hP]
    · rw [hfull1, hfull2, handleFilesGo_notifs, handleFilesGo_notifs, ← hP]
      rw [if_pos hcap1, if_neg hcap2, hA]
      simp
    · rw [hfull1, handleFilesGo_notifs, if_pos hcap1]
      rw [List.countP_append, List.countP_append]
      have herr : (processFiles s (files.take (availableSlotsOf s).toNat)
          ([], 0, 0)).2.1.countP (fun n => n.ntype = NotifType.warning) = 0 := by
        rw [List.countP_eq_zero]
        intro x hx
        have := processFiles_notifs_error (files.take (availableSlotsOf s).toNat)
          s [] 0 0 (by simp) x hx
        simp [this]
      have hsuccN : (if (processFiles s (files.take (availableSlotsOf s).toNat)
            ([], 0, 0)).2.2.1 > 0
          then [successNotification
              (processFiles s (files.take (availableSlotsOf s).toNat) ([], 0, 0)).2.2.1
              (processFiles s (files.take (availableSlotsOf s).toNat) ([], 0, 0)).2.2.2]
          else []).countP (fun n => n.ntype = NotifType.warning) = 0 := by
        by_cases hsucc :
            (processFiles s (files.take (availableSlotsOf s).toNat) ([], 0, 0)).2.2.1 > 0
        · rw [if_pos hsucc]
          simp [successNotification]
        · rw [if_neg hsucc]
          rfl
      rw [herr, hsuccN]
      simp [overflowNotification]

/-- Witness for C3 at the full eight-entry gallery. -/
theorem c3_capacity_witness :
    handleFiles galleryEight [pngFile, jpgFile]
      = (galleryEight, [maxedOutNotification], 0) :=
  (c3_capacity galleryEight [pngFile, jpgFile] (by decide)).2.1 (by decide)

theorem clearSlots_at (f : FormState) :
    ∀ (fuel lo j : Nat),
      (clearSlots f lo fuel).slots j
        = if lo ≤ j ∧ j < lo + fuel then clearSlot (f.slots j) else f.slots j := by
  intro fuel
  induction fuel generalizing f with
  | zero =>
    intro lo j
    rw [if_neg (by omega)]
    rfl
  | succ m ih =>
    intro lo j
    rw [clearSlots, ih]
    by_cases hj : j = lo
    · subst hj
      rw [if_neg (by omega), if_pos (by omega)]
      show (if j = j then clearSlot (f.slots j) else f.slots j) = _
      rw [if_pos rfl]
    · have hslot : (f.setSlot lo (clearSlot (f.slots lo))).slots j = f.slots j := by
        show (if j = lo then clearSlot (f.slots lo) else f.slots j) = f.slots j
        rw [if_neg hj]
      by_cases hin : lo + 1 ≤ j ∧ j < lo + 1 + m
      · rw [if_pos hin, if_pos (by omega), hslot]
      · rw [if_neg hin, if_neg (by omega), hslot]

theorem writeImageToForm_slots_ne (g : FormState) (img : ImageData) (j : Nat)
    (hne : img.slot ≠ j) : (writeImageToForm g img).slots j = g.slots j := by
  unfold writeImageToForm
  by_cases hp : ¬ (g.slots img.slot).inputPresent
  · rw [if_pos hp]
  · rw [if_neg hp]
    show (if j = img.slot then _ else g.slots j) = g.slots j
    rw [if_neg (fun hcontra => hne hcontra.symm)]

theorem foldl_write_skip (imgs : List ImageData) (j : Nat) :
    ∀ (g : FormState), (∀ img ∈ imgs, img.slot ≠ j) →
      (imgs.foldl writeImageToForm g).slots j = g.slots j := by
  induction imgs with
  | nil =>
    intro g _
    rfl
  | cons img rest ih =>
    intro g hdead
    rw [List.foldl_cons]
    rw [ih (writeImageToForm g img) (fun x hx => hdead x (List.mem_cons_of_mem _ hx))]
    exact writeImageToForm_slots_ne g img j (hdead img (List.mem_cons_self _ _))

theorem clearSlot_spec (fs : FormSlot) :
    (clearSlot fs).files = fs.files
    ∧ (clearSlot fs).fileValue = fs.fileValue
    ∧ (fs.altPresent → (clearSlot fs).altValue = "")
    ∧ (fs.coverPresent → (clearSlot fs).coverValue = "false") := by
  unfold clearSlot
  by_cases h1 : fs.inputPresent <;> by_cases h2 : fs.fileValue = "" <;>
    by_cases h3 : fs.altPresent <;> by_cases h4 : fs.coverPresent <;>
    simp [h1, h2, h3, h4]

/-- C5 (counterexample): with an empty gallery, a slot whose file input
still holds a stale file is not cleared by `syncFormInputs`: the clearing
branch only assigns the empty string to inputs that are already empty, so
the file stays attached (the alt and cover fields, by contrast, are
cleared). -/
theorem c5_counterexample :
    ((syncFormInputs galleryEmpty staleForm).slots 1).files = some pngFile
      ∧ ¬ ((syncFormInputs galleryEmpty staleForm).slots 1).files = none
      ∧ ((syncFormInputs galleryEmpty staleForm).slots 1).altValue = ""
      ∧ ((syncFormInputs galleryEmpty staleForm).slots 1).coverValue = "false" :=
  ⟨by decide, by decide, by decide, by decide⟩

/-- C5 (amended): after form synchronization, every slot in
`1..maxEntries` with no corresponding live entry has its alt-text field
emptied and its cover-flag field set to `"false"`, while its file field
(both the attached files and the input value) is left untouched. -/
theorem c5_amended (s : GalleryState) (f : FormState) (i : Nat)
    (h1 : 1 ≤ i) (h2 : i ≤ maxImages)
    (hdead : ∀ img ∈ s.images, img.slot ≠ i) :
    ((f.slots i).altPresent → ((syncFormInputs s f).slots i).altValue = "")
    ∧ ((f.slots i).coverPresent → ((syncFormInputs s f).slots i).coverValue = "false")
    ∧ ((syncFormInputs s f).slots i).files = (f.slots i).files
    ∧ ((syncFormInputs s f).slots i).fileValue = (f.slots i).fileValue := by
  have hslots : (syncFormInputs s f).slots i = clearSlot (f.slots i) := by
    unfold syncFormInputs syncDeletedImages
    show (s.images.foldl writeImageToForm (clearSlots f 1 maxImages)).slots i = _
    rw [foldl_write_skip s.images i (clearSlots f 1 maxImages) hdead]
    rw [clearSlots_at]
    rw [if_pos (by omega)]
  rw [hslots]
  rcases clearSlot_spec (f.slots i) with ⟨ha, hb, hc, hd⟩
  exact ⟨hc, hd, ha, hb⟩

/-- Witness for C5 (amended) at slot 2 of the stale form with an empty
gallery. -/
theorem c5_amended_witness :
    ((syncFormInputs galleryEmpty staleForm).slots 2).files = (staleForm.slots 2).files :=
  (c5_amended galleryEmpty staleForm 2 (by decide) (by decide) (by decide)).2.2.1

/-- C8: a file with a MIME type outside the accepted set or a size above
the byte ceiling is rejected by validation with a per-file error; the
validation loop's final state is the state obtained from the valid files
alone (each rejected file leaves the state untouched while the rest of
the batch is still processed), a batch of only invalid files leaves the
store exactly unchanged, every rejected file of the processed batch
surfaces its error notification, and `addImages` keeps the state
reachable (so all established invariants still hold). -/
theorem c8_rejection (s : GalleryState) (files : List JsFile) (f : JsFile)
    (hbad : ¬ (validTypes.contains f.mime : Prop) ∨ f.size > maxSize) :
    (∃ msg, validateImageFile f = Except.error msg)
    ∧ (∀ acc, (processFiles s files acc).1
        = (processFiles s (files.filter (fun g => (validateImageFile g).isOk)) acc).1)
    ∧ ((∀ g ∈ files, ¬ ((validateImageFile g).isOk : Prop)) →
        (processFiles s files ([], 0, 0)).1 = s)
    ∧ (¬ availableSlotsOf s ≤ 0 →
        ∀ (g : JsFile) (msg : String), g ∈ files.take (availableSlotsOf s).toNat →
          validateImageFile g = Except.error msg →
          (⟨msg, NotifType.error⟩ : Notification) ∈ (handleFiles s files).2.1)
    ∧ (Reachable s → Reachable (handleFiles s files).1) := by
  refine ⟨?_, ?_, ?_, ?_, ?_⟩
  · cases hbad with
    | inl htype =>
      refine ⟨f.name ++ ": Formato no válido. Usa JPG, PNG, WebP o GIF", ?_⟩
      unfold validateImageFile
      rw [if_pos htype]
    | inr hsize =>
      by_cases htype : (validTypes.contains f.mime : Prop)
      · refine ⟨f.name ++ ": Tamaño máximo 5MB para subida", ?_⟩
        unfold validateImageFile
        rw [if_neg (by simpa using htype), if_pos hsize]
      · refine ⟨f.name ++ ": Formato no válido. Usa JPG, PNG, WebP o GIF", ?_⟩
        unfold validateImageFile
        rw [if_pos htype]
  · intro acc
    exact processFiles_filter_ok files s acc
  · intro hall
    have hnil : files.filter (fun g => (validateImageFile g).isOk) = [] := by
      rw [List.filter_eq_nil]
      intro g hg
      exact hall g hg
    have := processFiles_filter_ok files s ([], 0, 0)
    rw [hnil] at this
    exact this
  · intro hroom g msg hg hbadg
    have hgo : handleFiles s files = handleFilesGo s files := by
      unfold handleFiles
      rw [if_neg hroom]
    rw [hgo, handleFilesGo_notifs]
    refine List.mem_append.mpr (Or.inl (List.mem_append.mpr (Or.inr ?_)))
    exact processFiles_error_mem (files.take (availableSlotsOf s).toNat)
      s [] 0 0 g msg hg hbadg
  · intro hr
    rcases hr with ⟨form, hrf⟩
    exact ⟨form, ReachableFrom.tail hrf (Step.addFiles s files)⟩

/-- Witness for C8: a single BMP file is rejected and leaves the empty
gallery unchanged. -/
theorem c8_rejection_witness :
    (processFiles galleryEmpty [bmpFile] ([], 0, 0)).1 = galleryEmpty :=
  (c8_rejection galleryEmpty [bmpFile] bmpFile (by decide)).2.2.1 (by decide)

end LaptopGalleryHybrid
